import Mathlib

/-!
Verification of the obsidian-exporter repository (src/unnamed/part_000, the
current version of the script, whose symbols and line numbers all spec claims
cite). The script walks the reference graph of an Obsidian vault, copies the
reachable notes and attachments into a flattened output directory with
content-hash based deduplication and collision renaming, and then rewrites the
links of every exported document.

The embedding below is a shallow model of that JavaScript program:
- JS strings are `List Char`; file contents are `List Char` as well, with byte
  equality modeled as list equality and hashing over the code points.
- The node `path` functions used by the script (join, resolve, basename,
  dirname, extname, parse, relative, isAbsolute) are modeled componentwise on
  POSIX-style absolute paths.
- `crypto.createHash("sha256")` is modeled by a full executable SHA-256.
- The filesystem is a read-only vault tree (ordered directory listings, so the
  depth-first search order of `findFileInVault` is faithful) plus a flat output
  store written during the run.  Directories in the output are implicit:
  `fs.mkdir` is modeled as a no-op, which is the only simplification of the
  I/O layer.
- The async control flow is a state-and-error monad `EM`: `throw`/`try`/`catch`
  become `OutRes.err` and `tryCatchE`, `process.exit` becomes `OutRes.exited`
  (not catchable), and the recursion of `resolveAndCopyNotes` carries an
  explicit structural gas parameter whose sufficiency is proved (the
  termination claim of the spec).
-/

namespace ObsExp

/-- JavaScript strings (and file contents) as character lists. -/
abbrev Str := List Char

/-! ## Character classes -/

def isLetterA (c : Char) : Bool := ('a' ≤ c && c ≤ 'z') || ('A' ≤ c && c ≤ 'Z')

def isDigitA (c : Char) : Bool := '0' ≤ c && c ≤ '9'

def isAlnumA (c : Char) : Bool := isLetterA c || isDigitA c

def isHexA (c : Char) : Bool :=
  isDigitA c || ('a' ≤ c && c ≤ 'f') || ('A' ≤ c && c ≤ 'F')

def hexVal (c : Char) : Nat :=
  if isDigitA c then c.toNat - 48
  else if 'a' ≤ c then c.toNat - 87
  else c.toNat - 55

/-! ## POSIX path model (`node:path`) -/

def splitSlashAux (acc : Str) : Str → List Str
  | [] => [acc.reverse]
  | '/' :: rest => acc.reverse :: splitSlashAux [] rest
  | c :: rest => splitSlashAux (c :: acc) rest

/-- Path components: split on `/`, dropping empty components. -/
def splitSlash (p : Str) : List Str := (splitSlashAux [] p).filter (fun x => x ≠ [])

def joinSlash : List Str → Str
  | [] => []
  | [x] => x
  | x :: y :: xs => x ++ '/' :: joinSlash (y :: xs)

/-- Normalization of `.` and `..` components, absolute-path semantics
(`..` at the root is dropped), as `path.join`/`path.resolve` perform. -/
def normComps (cs : List Str) : List Str :=
  cs.foldl (fun st c =>
    if c = ".".data then st
    else if c = "..".data then st.dropLast
    else st ++ [c]) []

def isAbsL (p : Str) : Bool := match p with | '/' :: _ => true | _ => false

def renderAbs (cs : List Str) : Str := '/' :: joinSlash cs

/-- `path.join a b` for an absolute `a` (the only way the script uses it). -/
def pathJoin (a b : Str) : Str := renderAbs (normComps (splitSlash a ++ splitSlash b))

/-- `path.basename`. -/
def basenameL (p : Str) : Str := match (splitSlash p).getLast? with
  | some b => b
  | none => []

/-- `path.dirname` of an absolute path. -/
def dirnameL (p : Str) : Str := renderAbs ((splitSlash p).dropLast)

/-- `path.extname`: extension of the basename, from the last dot; a dot at
position 0 of the basename yields the empty extension. -/
def extnameL (p : Str) : Str :=
  let b := basenameL p
  let r := b.reverse
  let pre := r.takeWhile (fun c => c ≠ '.')
  match r.drop pre.length with
  | [] => []
  | _ :: tl => if tl = [] then [] else '.' :: pre.reverse

/-- `path.parse(p).name`: the basename without its extension. -/
def stemL (p : Str) : Str :=
  let b := basenameL p
  b.take (b.length - (extnameL p).length)

def dropCommon : List Str → List Str → (List Str × List Str)
  | a :: as, b :: bs => if a = b then dropCommon as bs else (a :: as, b :: bs)
  | as, bs => (as, bs)

/-- `path.relative(fromP, toP)`, with a relative `toP` resolved against the
process working directory, as node does. -/
def relativeL (cwd fromP toP : Str) : Str :=
  let f := normComps (splitSlash fromP)
  let t := normComps (splitSlash (if isAbsL toP then toP else cwd ++ '/' :: toP))
  let (fr, tr) := dropCommon f t
  joinSlash (fr.map (fun _ => "..".data) ++ tr)

def containsSlash (l : Str) : Bool := l.any (fun c => c = '/')

/-- `s.replace(/\.md$/, "")`. -/
def stripMdL (b : Str) : Str :=
  if ".md".data.isSuffixOf b then b.take (b.length - 3) else b

/-! ## SHA-256 (`crypto.createHash("sha256")`), executable -/

def w32 (n : Nat) : Nat := n % 4294967296

def rotr (n x : Nat) : Nat := w32 (Nat.lor (x >>> n) (x <<< (32 - n)))

def bigS0 (x : Nat) : Nat := (rotr 2 x) ^^^ (rotr 13 x) ^^^ (rotr 22 x)

def bigS1 (x : Nat) : Nat := (rotr 6 x) ^^^ (rotr 11 x) ^^^ (rotr 25 x)

def smallS0 (x : Nat) : Nat := (rotr 7 x) ^^^ (rotr 18 x) ^^^ (x >>> 3)

def smallS1 (x : Nat) : Nat := (rotr 17 x) ^^^ (rotr 19 x) ^^^ (x >>> 10)

def chF (x y z : Nat) : Nat := (x &&& y) ^^^ ((x ^^^ 4294967295) &&& z)

def majF (x y z : Nat) : Nat := (x &&& y) ^^^ (x &&& z) ^^^ (y &&& z)

def shaK : List Nat :=
  [1116352408, 1899447441, 3049323471, 3921009573, 961987163, 1508970993,
   2453635748, 2870763221, 3624381080, 310598401, 607225278, 1426881987,
   1925078388, 2162078206, 2614888103, 3248222580, 3835390401, 4022224774,
   264347078, 604807628, 770255983, 1249150122, 1555081692, 1996064986,
   2554220882, 2821834349, 2952996808, 3210313671, 3336571891, 3584528711,
   113926993, 338241895, 666307205, 773529912, 1294757372, 1396182291,
   1695183700, 1986661051, 2177026350, 2456956037, 2730485921, 2820302411,
   3259730800, 3345764771, 3516065817, 3600352804, 4094571909, 275423344,
   430227734, 506948616, 659060556, 883997877, 958139571, 1322822218,
   1537002063, 1747873779, 1955562222, 2024104815, 2227730452, 2361852424,
   2428436474, 2756734187, 3204031479, 3329325298]

def shaH0 : List Nat :=
  [1779033703, 3144134277, 1013904242, 2773480762,
   1359893119, 2600822924, 528734635, 1541459225]

def be64 (n : Nat) : List Nat :=
  [(n >>> 56) &&& 255, (n >>> 48) &&& 255, (n >>> 40) &&& 255, (n >>> 32) &&& 255,
   (n >>> 24) &&& 255, (n >>> 16) &&& 255, (n >>> 8) &&& 255, n &&& 255]

/-- SHA-256 padding: `0x80`, zeros to 56 mod 64, then the 64-bit bit length. -/
def padMsg (msg : List Nat) : List Nat :=
  let L := msg.length
  msg ++ 128 :: List.replicate ((119 - (L % 64)) % 64) 0 ++ be64 (8 * L)

def toWords : List Nat → List Nat
  | b1 :: b2 :: b3 :: b4 :: rest =>
      (b1 * 16777216 + b2 * 65536 + b3 * 256 + b4) :: toWords rest
  | _ => []

def extendW : Nat → List Nat → List Nat
  | 0, ws => ws
  | k + 1, ws =>
      let i := ws.length
      extendW k (ws ++ [w32 (smallS1 (ws.getD (i - 2) 0) + ws.getD (i - 7) 0 +
        smallS0 (ws.getD (i - 15) 0) + ws.getD (i - 16) 0)])

def roundStep (st : List Nat) (wk : Nat × Nat) : List Nat :=
  match st with
  | [a, b, c, d, e, f, g, h] =>
      let t1 := w32 (h + bigS1 e + chF e f g + wk.2 + wk.1)
      let t2 := w32 (bigS0 a + majF a b c)
      [w32 (t1 + t2), a, b, c, w32 (d + t1), e, f, g]
  | other => other

def processChunk (h : List Nat) (chunk : List Nat) : List Nat :=
  let ws := extendW 48 (toWords chunk)
  let st := (ws.zip shaK).foldl roundStep h
  (h.zip st).map (fun p => w32 (p.1 + p.2))

def chunksGo : Nat → List Nat → List (List Nat)
  | 0, _ => []
  | k + 1, l => l.take 64 :: chunksGo k (l.drop 64)

def sha256Words (msg : List Nat) : List Nat :=
  let p := padMsg msg
  (chunksGo (p.length / 64) p).foldl processChunk shaH0

def hexChar (n : Nat) : Char :=
  if n < 10 then Char.ofNat (48 + n) else Char.ofNat (87 + n)

def toHex8 (w : Nat) : Str :=
  [hexChar ((w >>> 28) &&& 15), hexChar ((w >>> 24) &&& 15),
   hexChar ((w >>> 20) &&& 15), hexChar ((w >>> 16) &&& 15),
   hexChar ((w >>> 12) &&& 15), hexChar ((w >>> 8) &&& 15),
   hexChar ((w >>> 4) &&& 15), hexChar (w &&& 15)]

def sha256Hex (msg : List Nat) : Str :=
  (sha256Words msg).foldr (fun w acc => toHex8 w ++ acc) []

/-- The 8-character hex truncation the script takes of the content digest:
`createHash("sha256").update(fileContent).digest("hex").substring(0, 8)`. -/
def hash8 (content : Str) : Str := (sha256Hex (content.map Char.toNat)).take 8

/-! ## Percent coding (`decodeURIComponent` / `encodeURIComponent`)

`decodeURIComponent` is modeled byte-as-character for well-formed `%XX`
escapes; a malformed escape is passed through unchanged (the JS builtin throws
`URIError` there; no claim exercises malformed escapes).  `encodeURIComponent`
escapes everything outside its unreserved set, one byte per character. -/

def decodePctGo : Nat → Str → Str
  | 0, rest => rest
  | n + 1, cs =>
      match cs with
      | '%' :: h1 :: h2 :: rest2 =>
          if isHexA h1 && isHexA h2 then
            Char.ofNat (16 * hexVal h1 + hexVal h2) :: decodePctGo n rest2
          else '%' :: decodePctGo n (h1 :: h2 :: rest2)
      | c :: rest => c :: decodePctGo n rest
      | [] => []

def decodePct (s : Str) : Str := decodePctGo s.length s

def isUnreserved (c : Char) : Bool :=
  isAlnumA c || c = '-' || c = '_' || c = '.' || c = '!' || c = '~' ||
    c = '*' || c = '\'' || c = '(' || c = ')'

def hexCharU (n : Nat) : Char :=
  if n < 10 then Char.ofNat (48 + n) else Char.ofNat (55 + n)

def encodePct (s : Str) : Str :=
  s.foldr (fun c acc =>
    if isUnreserved c then c :: acc
    else '%' :: hexCharU (c.toNat / 16 % 16) :: hexCharU (c.toNat % 16) :: acc) []

/-! ## The link regular expressions of the script, as executable scanners

Wikilinks: `/\[\[(?![a-zA-Z][a-zA-Z\d+\-.]*:\/\/)(.+?)(?:\|(.+?))?\]\]/g`
Markdown links: `/\[(.*?)\]\((?!scheme)(.*?)\)/g` in `parseMarkdownForLinks`
and `/\[(.+?)\]\((?!scheme)(.+?)\)/g` in `updateLinks` (the `minOne` flag
distinguishes `.*?` from `.+?`).  The scanners reproduce the JS backtracking
semantics: lazy quantifiers take the shortest match, `.` does not match a
newline, the optional alias group is tried before being skipped, and a failed
match position advances by one character, matches being non-overlapping. -/

def isSchemeChar (c : Char) : Bool :=
  isLetterA c || isDigitA c || c = '+' || c = '-' || c = '.'

/-- The negative lookahead `(?![a-zA-Z][a-zA-Z\d+\-.]*:\/\/)`: does the text
ahead start with a URI scheme? -/
def isSchemeAt : Str → Bool
  | c :: rest => isLetterA c && "://".data.isPrefixOf (rest.dropWhile isSchemeChar)
  | [] => false

/-- Lazy search for `(.+?)\]\]` after a `|`: the shortest nonempty
newline-free alias followed by `]]`. -/
def aliasSearch (acc : Str) : Str → Option (Str × Str)
  | ']' :: ']' :: rest =>
      if acc = [] then aliasSearch [']'] (']' :: rest) else some (acc.reverse, rest)
  | c :: rest => if c = '\n' then none else aliasSearch (c :: acc) rest
  | [] => none

/-- The body of a wikilink after `[[`, accumulating the lazily-growing link:
at each length first try the alias group, then the bare `]]` close, else
extend the link by one character. -/
def wikiGrow (acc : Str) : Str → Option (Str × Option Str × Str)
  | '|' :: rest =>
      match aliasSearch [] rest with
      | some (al, r) => some (acc.reverse, some al, r)
      | none => wikiGrow ('|' :: acc) rest
  | ']' :: ']' :: rest => some (acc.reverse, none, rest)
  | c :: rest => if c = '\n' then none else wikiGrow (c :: acc) rest
  | [] => none

/-- Match the inside of a wikilink (`(.+?)(?:\|(.+?))?\]\]`): the link group
must consume at least one character. -/
def wikiTail : Str → Option (Str × Option Str × Str)
  | [] => none
  | c :: rest => if c = '\n' then none else wikiGrow [c] rest

/-- Lazy search for a markdown link target followed by `)`; `minOne` selects
between `.+?` (updateLinks) and `.*?` (parseMarkdownForLinks). -/
def mdLinkSearch (minOne : Bool) (acc : Str) : Str → Option (Str × Str)
  | ')' :: rest =>
      if minOne && acc = [] then mdLinkSearch minOne [')'] rest
      else some (acc.reverse, rest)
  | c :: rest => if c = '\n' then none else mdLinkSearch minOne (c :: acc) rest
  | [] => none

/-- After a candidate `](`: the scheme lookahead, then the link search. -/
def mdAttempt (minOne : Bool) (cs : Str) : Option (Str × Str) :=
  if isSchemeAt cs then none else mdLinkSearch minOne [] cs

/-- Lazy search for the text group of a markdown link: at each occurrence of
`](` attempt the lookahead and the link; on failure the text keeps growing
(which reproduces the JS backtracking across a failed lookahead). -/
def mdTextSearch (minOne : Bool) (acc : Str) : Str → Option (Str × Str × Str)
  | ']' :: '(' :: rest =>
      if minOne && acc = [] then mdTextSearch minOne [']'] ('(' :: rest)
      else
        match mdAttempt minOne rest with
        | some (l, r) => some (acc.reverse, l, r)
        | none => mdTextSearch minOne (']' :: acc) ('(' :: rest)
  | c :: rest => if c = '\n' then none else mdTextSearch minOne (c :: acc) rest
  | [] => none

/-- Attempt a wikilink match at the current position: the leading `[[`, the
scheme lookahead, then the body; returns the captures and the rest of the
text after the match. -/
def wikiHead (cs : Str) : Option ((Str × Option Str) × Str) :=
  match cs with
  | '[' :: '[' :: rest =>
      if isSchemeAt rest then none
      else
        match wikiTail rest with
        | some (l, a, r) => some ((l, a), r)
        | none => none
  | _ => none

/-- One global scan for wikilinks, decomposing the text into literal
characters and matches; a failed position advances by one character.  The gas
is initialized to the text length, which is always sufficient; it only keeps
the recursion structural. -/
def wikiChunksGo : Nat → Str → List (Char ⊕ (Str × Option Str))
  | 0, rest => rest.map Sum.inl
  | _ + 1, [] => []
  | n + 1, c :: rest =>
      match wikiHead (c :: rest) with
      | some ((l, a), r) => Sum.inr (l, a) :: wikiChunksGo n r
      | none => Sum.inl c :: wikiChunksGo n rest

def wikiChunks (cs : Str) : List (Char ⊕ (Str × Option Str)) :=
  wikiChunksGo cs.length cs

/-- Attempt a markdown-link match at the current position. -/
def mdHead (minOne : Bool) (cs : Str) : Option ((Str × Str) × Str) :=
  match cs with
  | '[' :: rest =>
      match mdTextSearch minOne [] rest with
      | some (t, l, r) => some ((t, l), r)
      | none => none
  | _ => none

/-- One global scan for markdown links (text group captured as well). -/
def mdChunksGo (minOne : Bool) : Nat → Str → List (Char ⊕ (Str × Str))
  | 0, rest => rest.map Sum.inl
  | _ + 1, [] => []
  | n + 1, c :: rest =>
      match mdHead minOne (c :: rest) with
      | some ((t, l), r) => Sum.inr (t, l) :: mdChunksGo minOne n r
      | none => Sum.inl c :: mdChunksGo minOne n rest

def mdChunks (minOne : Bool) (cs : Str) : List (Char ⊕ (Str × Str)) :=
  mdChunksGo minOne cs.length cs

/-- The wikilink matches of a text, in scan order (`match[1]` of each). -/
def wikiLinksList (content : Str) : List Str :=
  (wikiChunks content).filterMap (fun ch => match ch with
    | Sum.inr (l, _) => some l
    | Sum.inl _ => none)

/-- The markdown-link matches of a text, in scan order (`match[2]` of each,
with the parse variant `.*?` of the regex). -/
def mdLinksList (content : Str) : List Str :=
  (mdChunks false content).filterMap (fun ch => match ch with
    | Sum.inr (_, l) => some l
    | Sum.inl _ => none)

/-! ## `parseMarkdownForLinks` -/

/-- The `processLink` closure: decode, strip a `#heading`, classify by
extension into attachment (with the Excalidraw replacement) or note
(normalized to `.md`). -/
def processLinkF (acc : List Str × List Str) (link : Str) : List Str × List Str :=
  let decoded := decodePct link
  let cleanLink := decoded.takeWhile (fun c => c ≠ '#')
  let ext := extnameL cleanLink
  if ext ≠ [] && ext ≠ ".md".data then
    if ".excalidraw".data.isSuffixOf cleanLink then
      (acc.1 ++ [cleanLink ++ ".dark.png".data], acc.2)
    else (acc.1 ++ [cleanLink], acc.2)
  else
    (acc.1, acc.2 ++ [if ext ≠ [] then cleanLink else cleanLink ++ ".md".data])

/-- `parseMarkdownForLinks` on a text: wikilink pass then markdown-link pass,
each match classified by `processLink`; returns (attachments, notes). -/
def parseMd (content : Str) : List Str × List Str :=
  (wikiLinksList content ++ mdLinksList content).foldl processLinkF ([], [])

/-! ## The link rewriting of `updateLinks`, pure core -/

/-- `renamedFiles[k]` (a plain JS object lookup; the values the script stores
are always nonempty names, so the `|| fallback` on a falsy value is the
`none` case here). -/
def lookupRf (rf : List (Str × Str)) (k : Str) : Option Str :=
  (rf.find? (fun p => p.1 = k)).map (fun p => p.2)

/-- The replacement name for a wikilink target: extension test on the raw
link, decode, fall back to the basename when the (extension-normalized)
decoded target has no entry, then follow at most one extra rename hop. -/
def wikiNewName (rf : List (Str × Str)) (link : Str) : Str :=
  let isAttachmentLink := extnameL link ≠ []
  let decodedLink := decodePct link
  let cleanedLink := basenameL decodedLink
  let updatedLink := decodedLink ++ (if isAttachmentLink then [] else ".md".data)
  let n1 := match lookupRf rf updatedLink with
    | some v => v
    | none => cleanedLink
  match lookupRf rf n1 with
  | some v => v
  | none => n1

/-- The full wikilink replacement string, alias kept verbatim. -/
def wikiReplMatch (rf : List (Str × Str)) (l : Str) (a : Option Str) : Str :=
  "[[".data ++ wikiNewName rf l ++
    (match a with | some x => '|' :: x | none => []) ++ "]]".data

/-- The replacement name for a markdown link target. -/
def mdNewName (rf : List (Str × Str)) (link : Str) : Str :=
  let decodedLink := decodePct link
  let cleanedLink := basenameL decodedLink
  let n1 := match lookupRf rf decodedLink with
    | some v => v
    | none => cleanedLink
  match lookupRf rf n1 with
  | some v => v
  | none => n1

/-- The full markdown-link replacement string, displayed text kept verbatim,
target re-encoded. -/
def mdReplMatch (rf : List (Str × Str)) (t l : Str) : Str :=
  '[' :: t ++ ']' :: '(' :: encodePct (mdNewName rf l) ++ [')']

/-- `content.replace(wikilinkRegex, fn)`: the same scan as `wikiChunks`,
splicing replacements in place of matches. -/
def scanWikiGo (f : Str → Option Str → Str) : Nat → Str → Str
  | 0, rest => rest
  | _ + 1, [] => []
  | n + 1, c :: rest =>
      match wikiHead (c :: rest) with
      | some ((l, a), r) => f l a ++ scanWikiGo f n r
      | none => c :: scanWikiGo f n rest

def scanWikiR (f : Str → Option Str → Str) (cs : Str) : Str :=
  scanWikiGo f cs.length cs

/-- `content.replace(markdownLinkRegex, fn)` with the `.+?` update variant. -/
def scanMdGo (minOne : Bool) (f : Str → Str → Str) : Nat → Str → Str
  | 0, rest => rest
  | _ + 1, [] => []
  | n + 1, c :: rest =>
      match mdHead minOne (c :: rest) with
      | some ((t, l), r) => f t l ++ scanMdGo minOne f n r
      | none => c :: scanMdGo minOne f n rest

def scanMdR (minOne : Bool) (f : Str → Str → Str) (cs : Str) : Str :=
  scanMdGo minOne f cs.length cs

/-- The pure content transformation of `updateLinks`: the wikilink replace
pass, then the markdown-link replace pass on its result. -/
def updateLinksContent (rf : List (Str × Str)) (content : Str) : Str :=
  scanMdR true (mdReplMatch rf) (scanWikiR (wikiReplMatch rf) content)

/-! ## Filesystem model

The vault is an ordered tree; `VTree` doubles as entry and forest (`vnil` /
`vcons` build ordered directory listings, so `readdir` order and hence the
depth-first search order of `findFileInVault` is explicit).  The output is a
flat store of absolute path ↦ content, written during the run; directories are
implicit. -/

inductive VTree where
  | vfile (name : Str) (content : Str) (readable : Bool)
  | vnil
  | vcons (head tail : VTree)
  | vdir (name : Str) (children : VTree)
deriving Repr

/-- Build an ordered forest from a list of entries. -/
def vforest (es : List VTree) : VTree := es.foldr VTree.vcons VTree.vnil

structure Cfg where
  vault : VTree
  cwd : Str

/-- Lookup of a directory entry by name in a forest. -/
def vGetEntry : VTree → Str → Option VTree
  | .vnil, _ => none
  | .vfile n c r, m => if n = m then some (.vfile n c r) else none
  | .vdir n sub, m => if n = m then some (.vdir n sub) else none
  | .vcons e rest, m =>
      match vGetEntry e m with
      | some x => some x
      | none => vGetEntry rest m

/-- Walk a component path down the vault forest. -/
def vGetPath (t : VTree) : List Str → Option VTree
  | [] => none
  | c :: cs =>
      match vGetEntry t c with
      | some e =>
          match cs with
          | [] => some e
          | _ :: _ => match e with
            | .vdir _ sub => vGetPath sub cs
            | _ => none
      | none => none

/-- Hard-coded store root of the script. -/
def VAULT_DIR : Str := "/Users/avcton/Mind Palace".data

def ATTACHMENTS_DIR : Str := pathJoin VAULT_DIR "_attachments".data

def EXCALIDRAW_REPLACEMENT : Str := ".dark.png".data

def underVault (p : Str) : Bool := (splitSlash VAULT_DIR).isPrefixOf (splitSlash p)

def vaultRel (p : Str) : List Str := (splitSlash p).drop (splitSlash VAULT_DIR).length

/-! ## Run state and execution monad -/

/-- Ordered association update with JS `Map.set` / object-assignment
semantics: an existing key keeps its position, a new key is appended. -/
def assocSet (m : List (Str × Str)) (k v : Str) : List (Str × Str) :=
  if (m.find? (fun pr => pr.1 = k)).isSome then
    m.map (fun pr => if pr.1 = k then (k, v) else pr)
  else m ++ [(k, v)]

/-- JS `Map.delete`. -/
def assocDelete (m : List (Str × Str)) (k : Str) : List (Str × Str) :=
  m.filter (fun pr => pr.1 ≠ k)

structure St where
  output : List (Str × Str)
  uniqueAttachments : List (Str × Str)
  uniqueNotes : List (Str × Str)
  visitedNotes : List Str
  renamedFiles : List (Str × Str)
  warnings : List Str
  infos : List Str
  errlogs : List Str
deriving Repr, DecidableEq

def initSt : St := ⟨[], [], [], [], [], [], [], []⟩

inductive JsErr where
  | enoent
  | eacces
deriving Repr, DecidableEq

def errCode : JsErr → Str
  | .enoent => "ENOENT".data
  | .eacces => "EACCES".data

def errMessage : JsErr → Str
  | .enoent => "ENOENT: no such file or directory".data
  | .eacces => "EACCES: permission denied".data

/-- Outcome of a modeled async computation: normal value, thrown error,
`process.exit`, or gas exhaustion (never reached at adequate gas, see the
termination theorem). -/
inductive OutRes (α : Type) where
  | ok (a : α) (st : St)
  | err (e : JsErr) (st : St)
  | exited (code : Nat) (st : St)
  | fuelOut (st : St)
deriving Repr, DecidableEq

/-- The execution monad: state threading plus JS exceptions and exits. -/
abbrev EM (α : Type) := St → OutRes α

instance : Monad EM where
  pure a := fun st => .ok a st
  bind m f := fun st =>
    match m st with
    | .ok a st' => f a st'
    | .err e st' => .err e st'
    | .exited c st' => .exited c st'
    | .fuelOut st' => .fuelOut st'

def getSt : EM St := fun st => .ok st st

def modSt (f : St → St) : EM Unit := fun st => .ok () (f st)

def throwJs {α : Type} (e : JsErr) : EM α := fun st => .err e st

def exitProc {α : Type} (n : Nat) : EM α := fun st => .exited n st

def noFuel {α : Type} : EM α := fun st => .fuelOut st

/-- JS `try`/`catch`: exceptions are caught, `process.exit` is not. -/
def tryCatchE {α : Type} (m : EM α) (h : JsErr → EM α) : EM α := fun st =>
  match m st with
  | .err e st' => h e st'
  | r => r

def logWarning (message : Str) : EM Unit :=
  modSt (fun st => { st with warnings := st.warnings ++ ["[WARNING]: ".data ++ message] })

def consoleLog (message : Str) : EM Unit :=
  modSt (fun st => { st with infos := st.infos ++ [message] })

def consoleError (message : Str) : EM Unit :=
  modSt (fun st => { st with errlogs := st.errlogs ++ [message] })

/-! ## fs primitives on the model -/

/-- Content and readability of the file at an absolute path: vault paths are
served by the vault tree, all other paths by the output store (output files
are always readable). -/
def fileAbs (cfg : Cfg) (st : St) (p : Str) : Option (Str × Bool) :=
  if underVault p then
    match vGetPath cfg.vault (vaultRel p) with
    | some (.vfile _ c r) => some (c, r)
    | _ => none
  else
    match (st.output.find? (fun pr => pr.1 = p)).map (fun pr => pr.2) with
    | some c => some (c, true)
    | none => none

/-- Existence (file or directory) at an absolute path, `fs.access` fallback
mode. -/
def existsAbs (cfg : Cfg) (st : St) (p : Str) : Bool :=
  if underVault p then (vGetPath cfg.vault (vaultRel p)).isSome
  else (st.output.find? (fun pr => pr.1 = p)).isSome

def fsAccessF (cfg : Cfg) (p : Str) : EM Unit := fun st =>
  if existsAbs cfg st p then .ok () st else .err .enoent st

/-- `fs.access(p, R_OK)`. -/
def fsAccessR (cfg : Cfg) (p : Str) : EM Unit := fun st =>
  match fileAbs cfg st p with
  | some (_, true) => .ok () st
  | some (_, false) => .err .eacces st
  | none => .err .enoent st

def fsReadFile (cfg : Cfg) (p : Str) : EM Str := fun st =>
  match fileAbs cfg st p with
  | some (c, true) => .ok c st
  | some (_, false) => .err .eacces st
  | none => .err .enoent st

/-- `fs.stat(p).size` (metadata needs no read permission). -/
def fsStatSize (cfg : Cfg) (p : Str) : EM Nat := fun st =>
  match fileAbs cfg st p with
  | some (c, _) => .ok c.length st
  | none => .err .enoent st

/-- `fs.copyFile`: read the source, write the destination into the output
store (overwriting silently, as the syscall does). -/
def fsCopyFile (cfg : Cfg) (src dst : Str) : EM Unit := do
  let c ← fsReadFile cfg src
  modSt (fun st => { st with output := assocSet st.output dst c })

/-- `fs.rename` within the output store. -/
def fsRename (old new : Str) : EM Unit := fun st =>
  match (st.output.find? (fun pr => pr.1 = old)).map (fun pr => pr.2) with
  | some c => .ok () { st with output := assocSet (assocDelete st.output old) new c }
  | none => .err .enoent st

/-! ## The program (src/unnamed/part_000), function by function -/

/-- `copyFileToOutput` (lines 16-28): check readability, copy; `ENOENT`
becomes a warning, every other error is re-thrown.  The
`fs.mkdir(..., { recursive: true })` between the two is the implicit-directory
no-op of the model. -/
def copyFileToOutput (cfg : Cfg) (sourcePath destinationPath : Str) : EM Unit :=
  tryCatchE
    (do fsAccessR cfg sourcePath
        fsCopyFile cfg sourcePath destinationPath)
    (fun er =>
      if errCode er = "ENOENT".data then
        logWarning ("Source file not found: ".data ++ sourcePath)
      else throwJs er)

/-- `generateUniqueName` (lines 30-40): `stem_<8-hex-of-SHA-256(content)>.ext`;
any read failure logs and calls `process.exit(1)`. -/
def generateUniqueName (cfg : Cfg) (filePath : Str) : EM Str :=
  tryCatchE
    (do let fileContent ← fsReadFile cfg filePath
        pure (stemL filePath ++ '_' :: hash8 fileContent ++ extnameL filePath))
    (fun _ => do
        consoleError ("Error generating unique name for ".data ++ filePath)
        exitProc 1)

/-- `findFileInVault` (lines 335-349): depth-first search of the vault in
directory-listing order, first file with a matching name. -/
def findFileInVault (dirPath : Str) (t : VTree) (fileName : Str) : Option Str :=
  match t with
  | .vnil => none
  | .vfile n _ _ => if n = fileName then some (pathJoin dirPath n) else none
  | .vdir n sub => findFileInVault (pathJoin dirPath n) sub fileName
  | .vcons e rest =>
      match findFileInVault dirPath e fileName with
      | some r => some r
      | none => findFileInVault dirPath rest fileName

/-- `resolveFilePath` (lines 87-108): bare filename → attachments dir, then
vault-wide search; `./`/`../` → relative to the referring document; otherwise
vault-root relative.  Only the bare-filename case checks existence. -/
def resolveFilePath (cfg : Cfg) (basePath link : Str) : EM (Option Str) :=
  if containsSlash link = false then
    tryCatchE
      (do fsAccessF cfg (pathJoin ATTACHMENTS_DIR link)
          pure (some (pathJoin ATTACHMENTS_DIR link)))
      (fun _ => pure (findFileInVault VAULT_DIR cfg.vault link))
  else if "../".data.isPrefixOf link || "./".data.isPrefixOf link then
    pure (some (pathJoin (dirnameL basePath) link))
  else
    pure (some (pathJoin VAULT_DIR link))

/-- The collision-check regex
`^${stem}(_[a-zA-Z0-9]+)?\.[a-zA-Z0-9]+$` (lines 185-190 and 283-288), with
the stem treated literally (the source interpolates the stem unescaped, so a
stem containing regex metacharacters behaves differently there; no claim
involves such stems). -/
def restCollision : Str → Bool
  | '.' :: t => t ≠ [] && t.all isAlnumA
  | '_' :: more =>
      let u := more.takeWhile isAlnumA
      (u ≠ [] &&
        match more.drop u.length with
        | '.' :: t => t ≠ [] && t.all isAlnumA
        | _ => false)
  | _ => false

def collisionName (stem name : Str) : Bool :=
  stem.isPrefixOf name && restCollision (name.drop stem.length)

/-- One iteration of the "same content already exists" comparison, with the
per-entry `try`/`catch` that logs and keeps scanning (lines 142-157 and
253-269). -/
def compareFiles (cfg : Cfg) (existingPath resolvedPath : Str) : EM Bool :=
  tryCatchE
    (do let s1 ← fsStatSize cfg existingPath
        let s2 ← fsStatSize cfg resolvedPath
        if s1 = s2 then do
          let c1 ← fsReadFile cfg existingPath
          let c2 ← fsReadFile cfg resolvedPath
          pure (c1 = c2)
        else pure false)
    (fun er => do
        consoleError ("Error comparing files: ".data ++ errMessage er)
        pure false)

/-- The content-match loop over a registry (lines 138-159 / 249-271): among
entries whose basename equals the candidate's, compare size then bytes,
stopping at the first exact match. -/
def contentScan (cfg : Cfg) (resolvedName resolvedPath : Str) :
    List (Str × Str) → EM (Option Str)
  | [] => pure none
  | (existingPath, _) :: rest => do
      if basenameL existingPath = resolvedName then do
        let eq ← compareFiles cfg existingPath resolvedPath
        if eq then pure (some existingPath)
        else contentScan cfg resolvedName resolvedPath rest
      else contentScan cfg resolvedName resolvedPath rest

/-- The loop body of `resolveAndCopyAttachments` (lines 110-202). -/
def racAtt (cfg : Cfg) : List Str → Str → Str → EM Unit
  | [], _, _ => pure ()
  | attachment :: rest, basePath, outputDir => do
      let globalAttachmentsDir := pathJoin outputDir "attachments".data
      let r ← resolveFilePath cfg basePath attachment
      match r with
      | none => do
          logWarning ("Attachment not found: ".data ++ attachment)
          racAtt cfg rest basePath outputDir
      | some resolvedPath => do
          let resolvedName := basenameL resolvedPath
          let st0 ← getSt
          let existingAttachmentPath ← contentScan cfg resolvedName resolvedPath st0.uniqueAttachments
          match existingAttachmentPath with
          | some _ => do
              consoleLog ("Attachment already exists (same content): ".data ++ attachment)
              racAtt cfg rest basePath outputDir
          | none => do
              let st1 ← getSt
              (match st1.uniqueAttachments.find? (fun pr => basenameL pr.1 = resolvedName) with
               | some (existingPath, aRef) => do
                   let newExistingName ← generateUniqueName cfg existingPath
                   let newExistingPath := pathJoin globalAttachmentsDir newExistingName
                   fsRename (pathJoin globalAttachmentsDir (basenameL existingPath)) newExistingPath
                   modSt (fun st => { st with
                     uniqueAttachments :=
                       assocSet (assocDelete st.uniqueAttachments existingPath) newExistingPath aRef,
                     renamedFiles := assocSet st.renamedFiles aRef newExistingName })
               | none => pure ())
              let st2 ← getSt
              let collisionDetected := st2.uniqueAttachments.any
                (fun pr => collisionName (stemL resolvedName) (basenameL pr.1))
              let uniqueName ←
                (if collisionDetected then do
                   let u ← generateUniqueName cfg resolvedPath
                   modSt (fun st => { st with renamedFiles := assocSet st.renamedFiles attachment u })
                   pure u
                 else pure resolvedName)
              let destinationPath := pathJoin globalAttachmentsDir uniqueName
              copyFileToOutput cfg resolvedPath destinationPath
              modSt (fun st => { st with
                uniqueAttachments := assocSet st.uniqueAttachments destinationPath attachment })
              racAtt cfg rest basePath outputDir

/-- `resolveAndCopyAttachments`; the `access`/`mkdir` of the global
attachments directory is the implicit-directory no-op. -/
def resolveAndCopyAttachments (cfg : Cfg) (attachments : List Str)
    (basePath outputDir : Str) : EM Unit :=
  racAtt cfg attachments basePath outputDir

/-- `parseMarkdownForLinks` (lines 43-84) on a file: read then scan. -/
def parseMarkdownForLinksE (cfg : Cfg) (filePath : Str) : EM (List Str × List Str) := do
  let content ← fsReadFile cfg filePath
  pure (parseMd content)

/-- `resolveAndCopyNotes` (lines 205-331).  The gas argument bounds the
recursion depth structurally; `noFuel` is never reached at adequate gas (the
termination theorem below). -/
def walkNotes (cfg : Cfg) : Nat → List Str → Str → Str → EM Unit
  | 0, _, _, _ => noFuel
  | _ + 1, [], _, _ => pure ()
  | gas + 1, note :: rest, basePath, outputDir => do
      let referencesFolder := pathJoin outputDir "references".data
      let st0 ← getSt
      if st0.visitedNotes.contains note then
        walkNotes cfg gas rest basePath outputDir
      else do
        modSt (fun st => { st with visitedNotes := st.visitedNotes ++ [note] })
        let r ← resolveFilePath cfg basePath note
        match r with
        | none => do
            logWarning ("Note not found: ".data ++ note)
            walkNotes cfg gas rest basePath outputDir
        | some resolvedPath => do
            let resolvedName := basenameL resolvedPath
            let relativePathFromOutput := relativeL cfg.cwd outputDir (stemL resolvedName)
            if !("..".data.isPrefixOf relativePathFromOutput) && !(isAbsL relativePathFromOutput) then do
              modSt (fun st => { st with uniqueNotes := assocSet st.uniqueNotes resolvedPath note })
              walkNotes cfg gas rest basePath outputDir
            else do
              let st1 ← getSt
              let existingNotePath ← contentScan cfg resolvedName resolvedPath st1.uniqueNotes
              match existingNotePath with
              | some _ => do
                  consoleLog ("Note already exists (same content): ".data ++ note)
                  walkNotes cfg gas rest basePath outputDir
              | none => do
                  let st2 ← getSt
                  let existingEntry := st2.uniqueNotes.find?
                    (fun pr => basenameL pr.1 = resolvedName)
                  let regexCollision := st2.uniqueNotes.any
                    (fun pr => collisionName (stemL resolvedName) (basenameL pr.1))
                  (match existingEntry with
                   | some (existingPath, nRef) => do
                       let newExistingName ← generateUniqueName cfg existingPath
                       let newExistingPath := pathJoin referencesFolder newExistingName
                       fsRename (pathJoin referencesFolder (basenameL existingPath)) newExistingPath
                       modSt (fun st => { st with
                         uniqueNotes :=
                           assocSet (assocDelete st.uniqueNotes existingPath) newExistingPath nRef,
                         renamedFiles := assocSet st.renamedFiles nRef newExistingName })
                   | none => pure ())
                  let collisionDetected := regexCollision || existingEntry.isSome
                  let finalPath ←
                    (if collisionDetected then do
                       let u ← generateUniqueName cfg resolvedPath
                       modSt (fun st => { st with renamedFiles := assocSet st.renamedFiles note u })
                       pure (pathJoin referencesFolder u)
                     else pure (pathJoin referencesFolder resolvedName))
                  copyFileToOutput cfg resolvedPath finalPath
                  modSt (fun st => { st with uniqueNotes := assocSet st.uniqueNotes finalPath note })
                  let pl1 ← parseMarkdownForLinksE cfg resolvedPath
                  resolveAndCopyAttachments cfg pl1.1 resolvedPath outputDir
                  let pl2 ← parseMarkdownForLinksE cfg resolvedPath
                  walkNotes cfg gas pl2.2 resolvedPath outputDir
                  walkNotes cfg gas rest basePath outputDir

def resolveAndCopyNotes (cfg : Cfg) (gas : Nat) (notes : List Str)
    (basePath outputDir : Str) : EM Unit :=
  walkNotes cfg gas notes basePath outputDir

inductive InputType where
  | file
  | folder
deriving Repr, DecidableEq

/-- `processMarkdownFile` (lines 352-383). -/
def processMarkdownFile (cfg : Cfg) (gas : Nat) (filePath outputDir : Str)
    (inputType : InputType) : EM Unit := do
  let destinationPath :=
    match inputType with
    | .file => pathJoin outputDir (basenameL filePath)
    | .folder => pathJoin outputDir (relativeL cfg.cwd VAULT_DIR filePath)
  copyFileToOutput cfg filePath destinationPath
  let pl ← parseMarkdownForLinksE cfg filePath
  resolveAndCopyAttachments cfg pl.1 filePath outputDir
  resolveAndCopyNotes cfg gas pl.2 filePath outputDir

/-- `updateLinks` (lines 386-418): read, rewrite both link kinds with the
final rename table, write back. -/
def updateLinks (cfg : Cfg) (filePath : Str) : EM Unit := do
  let content ← fsReadFile cfg filePath
  let st ← getSt
  modSt (fun s => { s with
    output := assocSet s.output filePath (updateLinksContent st.renamedFiles content) })

/-- `processFolder` (lines 421-460): recursive walk in listing order,
skipping `_`-prefixed names with a warning, processing `.md` files. -/
def processFolder (cfg : Cfg) (gas : Nat) (folderPath : Str) (t : VTree)
    (outputDir : Str) : EM Unit :=
  match t with
  | .vnil => pure ()
  | .vfile n _ _ =>
      if "_".data.isPrefixOf n then logWarning ("Skipping file or folder: ".data ++ n)
      else if ".md".data.isSuffixOf n then
        processMarkdownFile cfg gas (pathJoin folderPath n) outputDir .folder
      else pure ()
  | .vdir n sub =>
      if "_".data.isPrefixOf n then logWarning ("Skipping file or folder: ".data ++ n)
      else processFolder cfg gas (pathJoin folderPath n) sub outputDir
  | .vcons e rest => do
      processFolder cfg gas folderPath e outputDir
      processFolder cfg gas folderPath rest outputDir

def updLoop (cfg : Cfg) : List Str → EM Unit
  | [] => pure ()
  | p :: rest => do
      updateLinks cfg p
      updLoop cfg rest

/-- `updateLinksInDirectory` (lines 509-519), modeled on the flat output
store: every `.md` file under the directory gets `updateLinks`. -/
def updateLinksInDirectory (cfg : Cfg) (dir : Str) : EM Unit := do
  let st ← getSt
  updLoop cfg ((st.output.map (fun pr => pr.1)).filter
    (fun p => (dir ++ ['/']).isPrefixOf p && ".md".data.isSuffixOf (basenameL p)))

inductive StatRes where
  | statFile (content : Str) (readable : Bool)
  | statDir (t : VTree)

/-- `fs.stat` on a vault path, used by `main` on the input path. -/
def vaultStatE (cfg : Cfg) (p : Str) : EM StatRes := fun st =>
  if underVault p then
    match vGetPath cfg.vault (vaultRel p) with
    | some (.vfile _ c r) => .ok (.statFile c r) st
    | some (.vdir _ sub) => .ok (.statDir sub) st
    | _ => .err .enoent st
  else .err .enoent st

/-- `main` (lines 463-525): argument check, stat (outside the try), output
directory derivation, dispatch, then the rewrite pass; the catch prints
`Error: ...` and falls through to a normal exit. -/
def mainModel (cfg : Cfg) (inputPath : Str) (gas : Nat) : EM Unit := do
  if inputPath = [] then do
    consoleError "Usage: node script.js <inputPath>".data
    exitProc 1
  else do
    let fullPath := pathJoin VAULT_DIR inputPath
    let stt ← vaultStatE cfg fullPath
    let outputDir := pathJoin cfg.cwd (stripMdL (basenameL fullPath))
    consoleLog ("Destination Path: ".data ++ outputDir)
    tryCatchE
      (match stt with
       | .statDir t => do
           processFolder cfg gas fullPath t outputDir
           updateLinksInDirectory cfg outputDir
       | .statFile _ _ =>
           if ".md".data.isSuffixOf fullPath then do
             processMarkdownFile cfg gas fullPath outputDir .file
             updateLinksInDirectory cfg outputDir
           else
             consoleError "Invalid input path. Please provide a valid markdown file or folder.".data)
      (fun er => consoleError ("Error: ".data ++ errMessage er))

/-- The whole process: `main().catch(err => console.error(err))`.  Returns
the process exit code and the final state. -/
def runMain (cfg : Cfg) (inputPath : Str) (gas : Nat) : Nat × St :=
  match tryCatchE (mainModel cfg inputPath gas) (fun er => consoleError (errMessage er)) initSt with
  | .ok _ st => (0, st)
  | .err _ st => (0, st)
  | .exited c st => (c, st)
  | .fuelOut st => (1000000, st)

/-! ## Derived notions used by the statements -/

/-- The state carried by any outcome. -/
def stOf {α : Type} : OutRes α → St
  | .ok _ st => st
  | .err _ st => st
  | .exited _ st => st
  | .fuelOut st => st

def isFuelOut {α : Type} : OutRes α → Bool
  | .fuelOut _ => true
  | _ => false

/-- Read a file's content if it exists and is readable. -/
def readAbs (cfg : Cfg) (st : St) (p : Str) : Option Str :=
  match fileAbs cfg st p with
  | some (c, true) => some c
  | _ => none

/-- All file contents of a vault tree. -/
def vaultContentsL : VTree → List Str
  | .vnil => []
  | .vfile _ c _ => [c]
  | .vdir _ sub => vaultContentsL sub
  | .vcons e r => vaultContentsL e ++ vaultContentsL r

/-- Every note-link string any vault file can produce. -/
def allNoteStrs (cfg : Cfg) : List Str :=
  ((vaultContentsL cfg.vault).map (fun c => (parseMd c).2)).flatten

/-- The longest note list any single vault file can produce. -/
def maxNotesLen (cfg : Cfg) : Nat :=
  ((vaultContentsL cfg.vault).map (fun c => (parseMd c).2.length)).foldr Nat.max 0

/-- Note-link strings of the store not yet in the visited set. -/
def unvis (cfg : Cfg) (st : St) : Nat :=
  ((allNoteStrs cfg).dedup.filter (fun n => ¬ st.visitedNotes.contains n)).length

/-- During the walk every output file is a byte copy of some vault file
(the rewrite pass has not run yet). -/
def outOk (cfg : Cfg) (st : St) : Prop :=
  ∀ pr ∈ st.output, pr.2 ∈ vaultContentsL cfg.vault

/-- The documents the top-level folder walk processes, in walk order. -/
def collectDocs (folderPath : Str) : VTree → List Str
  | .vnil => []
  | .vfile n _ _ =>
      if "_".data.isPrefixOf n then []
      else if ".md".data.isSuffixOf n then [pathJoin folderPath n] else []
  | .vdir n sub =>
      if "_".data.isPrefixOf n then [] else collectDocs (pathJoin folderPath n) sub
  | .vcons e rest => collectDocs folderPath e ++ collectDocs folderPath rest

/-- All files of a vault subtree with their absolute paths, in depth-first
listing order — the search order of `findFileInVault`. -/
def dfsFiles (dirPath : Str) : VTree → List (Str × Str)
  | .vnil => []
  | .vfile n _ _ => [(pathJoin dirPath n, n)]
  | .vdir n sub => dfsFiles (pathJoin dirPath n) sub
  | .vcons e rest => dfsFiles dirPath e ++ dfsFiles dirPath rest

/-- Outcome-state preservation of a predicate, on every outcome. -/
def presP {α : Type} (m : EM α) (P : St → Prop) : Prop :=
  ∀ st, P st → P (stOf (m st))

/-! ## Concrete stores used by the claim instances -/

/-- A document referencing two byte-identical attachments under different
basenames. -/
def c1Vault : VTree := vforest [
  .vfile "D.md".data "a ![[a.png]] b ![[b.png]]".data true,
  .vdir "_attachments".data (vforest [
    .vfile "a.png".data "SAME".data true,
    .vfile "b.png".data "SAME".data true])]

def c1Cfg : Cfg := ⟨c1Vault, "/out".data⟩

/-- A document referencing an attachment that exists nowhere, plus a self
note link. -/
def c4Vault : VTree := vforest [
  .vfile "D.md".data "x ![[gone.png]] y [[D]]".data true]

def c4Cfg : Cfg := ⟨c4Vault, "/out".data⟩

/-- A document with a `./`-relative note link whose target does not exist. -/
def c6Vault : VTree := vforest [
  .vfile "D.md".data "x [[./missing]] y".data true]

def c6Cfg : Cfg := ⟨c6Vault, "/out".data⟩

/-- Folder input `Proj`; a note named `Proj.md` lives elsewhere in the vault,
far outside the output root, and is referenced from inside the folder. -/
def c7Vault : VTree := vforest [
  .vdir "Proj".data (vforest [.vfile "doc.md".data "see [[Proj]]".data true]),
  .vdir "elsewhere".data (vforest [.vfile "Proj.md".data "I live outside".data true])]

def c7Cfg : Cfg := ⟨c7Vault, "/out".data⟩

/-- A document referencing an attachment whose source file is unreadable. -/
def c8Vault : VTree := vforest [
  .vfile "D.md".data "a ![[locked.png]]".data true,
  .vdir "_attachments".data (vforest [.vfile "locked.png".data "SECRET".data false])]

def c8Cfg : Cfg := ⟨c8Vault, "/out".data⟩

/-- Two vault files with identical bytes at different depths. -/
def c9Vault : VTree := vforest [
  .vfile "one.md".data "HELLO".data true,
  .vdir "deep".data (vforest [.vfile "one.md".data "HELLO".data true])]

/-- Rendering of a wikilink chunk decomposition with a replacement
function. -/
def wikiRender (f : Str → Option Str → Str) (chunks : List (Char ⊕ (Str × Option Str))) : Str :=
  chunks.foldr (fun ch acc =>
    match ch with
    | Sum.inl c => c :: acc
    | Sum.inr (l, a) => f l a ++ acc) []

/-- Rendering of a markdown-link chunk decomposition. -/
def mdRender (f : Str → Str → Str) (chunks : List (Char ⊕ (Str × Str))) : Str :=
  chunks.foldr (fun ch acc =>
    match ch with
    | Sum.inl c => c :: acc
    | Sum.inr (t, l) => f t l ++ acc) []

/-- The first-stage name of a wikilink target during the rewrite: the
RenameTable entry of the decoded, extension-normalized target, or the
decoded target's basename when there is none. -/
def wikiBase (rf : List (Str × Str)) (link : Str) : Str :=
  match lookupRf rf (decodePct link ++ (if extnameL link ≠ [] then [] else ".md".data)) with
  | some v => v
  | none => basenameL (decodePct link)

/-- The first-stage name of a markdown-link target during the rewrite. -/
def mdBase (rf : List (Str × Str)) (link : Str) : Str :=
  match lookupRf rf (decodePct link) with
  | some v => v
  | none => basenameL (decodePct link)

/-- After the first-stage name, the rewriter follows exactly one additional
RenameTable hop when there is one, and never more. -/
def hopBounded (rf : List (Str × Str)) (n1 res : Str) : Prop :=
  (∃ v, lookupRf rf n1 = some v ∧ res = v) ∨ (lookupRf rf n1 = none ∧ res = n1)

/-- A collision run in which the unique-name generation reads an unreadable
source file: `generateUniqueName` logs and exits 1. -/
def c8bVault : VTree := vforest [
  .vfile "D.md".data "a ![[x.png]] b [y](pics/x.png)".data true,
  .vdir "_attachments".data (vforest [.vfile "x.png".data "ONE".data true]),
  .vdir "pics".data (vforest [.vfile "x.png".data "TWOLONGER".data false])]

def c8bCfg : Cfg := ⟨c8bVault, "/out".data⟩

/-- A registry entry matching the candidate: equal basename and identical
(readable) bytes. -/
def contentHit (cfg : Cfg) (st : St) (rn c : Str) (pr : Str × Str) : Bool :=
  basenameL pr.1 = rn && decide (fileAbs cfg st pr.1 = some (c, true))

def c6bVault : VTree := vforest [
  .vfile "D.md".data "body".data true,
  .vdir "_attachments".data (vforest [.vfile "pic.png".data "IMG".data true]),
  .vdir "sub".data (vforest [.vfile "stray.png".data "IMG2".data true])]

def c6bCfg : Cfg := ⟨c6bVault, "/out".data⟩

/-- Attachments store for the C1 witness: an entry for `a.png` is already
exported and a second, byte-identical `a.png` elsewhere is referenced. -/
def c1bVault : VTree := vforest [
  .vfile "D.md".data "body".data true,
  .vdir "_attachments".data (vforest [.vfile "a.png".data "SAME".data true]),
  .vdir "dup".data (vforest [.vfile "a.png".data "SAME".data true]),
  .vdir "other".data (vforest [.vfile "N.md".data "X".data true])]

def c1bCfg : Cfg := ⟨c1bVault, "/out".data⟩

def c1bSt : St :=
  { initSt with
    output := [("/out/D/attachments/a.png".data, "SAME".data),
               ("/out/D/references/N.md".data, "X".data)],
    uniqueAttachments := [("/out/D/attachments/a.png".data, "a.png".data)],
    uniqueNotes := [("/out/D/references/N.md".data, "N.md".data)] }

def c2bVault : VTree := vforest [
  .vfile "D.md".data "body".data true,
  .vdir "_attachments".data (vforest [.vfile "x.png".data "NEW".data true])]

def c2bCfg : Cfg := ⟨c2bVault, "/cwd".data⟩

def c2bSt : St :=
  { initSt with
    output := [("/out/attachments/x.png".data, "OLD".data)],
    uniqueAttachments := [("/out/attachments/x.png".data, "y/x.png".data)] }

def c2bP0 : Str := "/out/attachments/x.png".data

def c2bRp : Str := pathJoin ATTACHMENTS_DIR "x.png".data

def c2bRen0 : Str := stemL c2bP0 ++ '_' :: hash8 "OLD".data ++ extnameL c2bP0

def c2bRen1 : Str := stemL c2bRp ++ '_' :: hash8 "NEW".data ++ extnameL c2bRp

def c2bDest0 : Str := pathJoin (pathJoin "/out".data "attachments".data) c2bRen0

def c2bDest1 : Str := pathJoin (pathJoin "/out".data "attachments".data) c2bRen1

def visSub (s sb : St) : Prop := ∀ n, n ∈ s.visitedNotes → n ∈ sb.visitedNotes

def c3Vault : VTree := vforest [
  .vfile "S.md".data "[[A]]".data true,
  .vfile "A.md".data "go [[B]]".data true,
  .vfile "B.md".data "back [[A]]".data true]

def c3Cfg : Cfg := ⟨c3Vault, "/cwd".data⟩

def goodAt (cfg : Cfg) {α : Type} (m : EM α) (st : St) : Prop :=
  isFuelOut (m st) = false ∧
    (outOk cfg st → outOk cfg (stOf (m st))) ∧
    visSub st (stOf (m st))

def goodE (cfg : Cfg) {α : Type} (m : EM α) : Prop := ∀ st, goodAt cfg m st

def c4bVault : VTree := vforest [
  .vfile "D.md".data "see [[A]] and ![[p.png]]".data true,
  .vfile "A.md".data "plain".data true,
  .vdir "_attachments".data (vforest [.vfile "p.png".data "PNG".data true])]

def c4bCfg : Cfg := ⟨c4bVault, "/cwd".data⟩

def docOf : Str ⊕ Str → Option Str
  | .inr d => some d
  | .inl _ => none

/-- The top-level folder walk as a stream of events: a skipped
underscore-name (warned) or a processed document path, in walk order. -/
def folderItems (fp : Str) : VTree → List (Str ⊕ Str)
  | .vnil => []
  | .vfile n _ _ =>
      if "_".data.isPrefixOf n then [.inl n]
      else if ".md".data.isSuffixOf n then [.inr (pathJoin fp n)] else []
  | .vdir n sub =>
      if "_".data.isPrefixOf n then [.inl n] else folderItems (pathJoin fp n) sub
  | .vcons e rest => folderItems fp e ++ folderItems fp rest

/-- Replay of the event stream: warnings for skips, `processMarkdownFile`
for documents. -/
def itemsFold (cfg : Cfg) (gas : Nat) (od : Str) : List (Str ⊕ Str) → EM Unit
  | [] => pure ()
  | .inl n :: rest => do
      logWarning ("Skipping file or folder: ".data ++ n)
      itemsFold cfg gas od rest
  | .inr d :: rest => do
      processMarkdownFile cfg gas d od .folder
      itemsFold cfg gas od rest

def c10Vault : VTree := vforest [
  .vdir "Proj".data (vforest [
     .vfile "D.md".data "see ![[x.png]]".data true,
     .vfile "_hidden.md".data "secret".data true,
     .vdir "_private".data (vforest [.vfile "P.md".data "p".data true])]),
  .vdir "_attachments".data (vforest [.vfile "x.png".data "XPNG".data true])]

def c10Cfg : Cfg := ⟨c10Vault, "/cwd".data⟩

/-! ## Claims -/

set_option maxRecDepth 100000

/-! ## Execution-monad lemmas -/

theorem bind_apply {α β : Type} (m : EM α) (f : α → EM β) (st : St) :
    (m >>= f) st =
      match m st with
      | .ok a st' => f a st'
      | .err e st' => .err e st'
      | .exited c st' => .exited c st'
      | .fuelOut st' => .fuelOut st' := rfl

theorem pure_apply {α : Type} (a : α) (st : St) : (pure a : EM α) st = .ok a st := rfl

theorem tryCatchE_apply {α : Type} (m : EM α) (h : JsErr → EM α) (st : St) :
    tryCatchE m h st =
      match m st with
      | .err e st' => h e st'
      | r => r := rfl

theorem getSt_apply (st : St) : getSt st = .ok st st := rfl

theorem modSt_apply (f : St → St) (st : St) : modSt f st = .ok () (f st) := rfl

theorem presP_bind {α β : Type} {m : EM α} {f : α → EM β} {P : St → Prop}
    (hm : presP m P) (hf : ∀ a, presP (f a) P) : presP (m >>= f) P := by
  intro st hP
  rw [bind_apply]
  cases hres : m st with
  | ok a st' =>
      have := hm st hP
      rw [hres] at this
      exact hf a st' this
  | err e st' =>
      have := hm st hP
      rw [hres] at this
      exact this
  | exited c st' =>
      have := hm st hP
      rw [hres] at this
      exact this
  | fuelOut st' =>
      have := hm st hP
      rw [hres] at this
      exact this

theorem presP_tryCatch {α : Type} {m : EM α} {h : JsErr → EM α} {P : St → Prop}
    (hm : presP m P) (hh : ∀ e, presP (h e) P) : presP (tryCatchE m h) P := by
  intro st hP
  rw [tryCatchE_apply]
  cases hres : m st with
  | ok a st' =>
      have := hm st hP
      rw [hres] at this
      exact this
  | err e st' =>
      have := hm st hP
      rw [hres] at this
      exact hh e st' this
  | exited c st' =>
      have := hm st hP
      rw [hres] at this
      exact this
  | fuelOut st' =>
      have := hm st hP
      rw [hres] at this
      exact this

theorem presP_pure {α : Type} (a : α) (P : St → Prop) : presP (pure a : EM α) P := by
  intro st hP
  exact hP

/-- C9: unique-name derivation is deterministic.  `generateUniqueName` is a
function of the file's stem, extension and bytes alone: reading the same
content for two paths with equal stem and extension — in different runs,
states, stores or processing orders — produces the identical
`stem_<8-hex-of-SHA-256(content)>.ext`, and the suffix is `hash8` of the
bytes only. -/
theorem c9_unique_name_deterministic (cfg cfg' : Cfg) (st st' : St) (p p' c : Str)
    (h : fsReadFile cfg p st = .ok c st)
    (h' : fsReadFile cfg' p' st' = .ok c st')
    (hstem : stemL p' = stemL p) (hext : extnameL p' = extnameL p) :
    generateUniqueName cfg p st = .ok (stemL p ++ '_' :: hash8 c ++ extnameL p) st ∧
    generateUniqueName cfg' p' st' = .ok (stemL p ++ '_' :: hash8 c ++ extnameL p) st' := by
  constructor
  · unfold generateUniqueName
    rw [tryCatchE_apply, bind_apply, h]
  · unfold generateUniqueName
    rw [tryCatchE_apply, bind_apply, h', hstem, hext]

/-- Witness for C9 at two distinct paths of a concrete store holding the same
bytes. -/
theorem c9_unique_name_deterministic_witness :
    generateUniqueName ⟨c9Vault, "/out".data⟩ (pathJoin VAULT_DIR "one.md".data) initSt =
      .ok (stemL (pathJoin VAULT_DIR "one.md".data) ++ '_' ::
        hash8 "HELLO".data ++ extnameL (pathJoin VAULT_DIR "one.md".data)) initSt ∧
    generateUniqueName ⟨c9Vault, "/elsewhere".data⟩ (pathJoin VAULT_DIR "deep/one.md".data) initSt =
      .ok (stemL (pathJoin VAULT_DIR "one.md".data) ++ '_' ::
        hash8 "HELLO".data ++ extnameL (pathJoin VAULT_DIR "one.md".data)) initSt :=
  c9_unique_name_deterministic ⟨c9Vault, "/out".data⟩ ⟨c9Vault, "/elsewhere".data⟩
    initSt initSt (pathJoin VAULT_DIR "one.md".data) (pathJoin VAULT_DIR "deep/one.md".data)
    "HELLO".data (by decide) (by decide) (by decide) (by decide)

/-- C7: the claim (and the script's own comment, line 237) says a note is
registered in place exactly when it is already located inside the output
root.  The code instead tests `path.relative(outputDir, stem-of-note)`
against the *stem*, so a note whose stem equals the output directory's
basename is registered in place wherever it lives.  Evaluated at the failing
input: folder input `Proj`, note `elsewhere/Proj.md` referenced from inside —
the run completes, the note is registered under its vault path (not under the
output root), and no copy of it appears anywhere in the output tree. -/
theorem c7_in_place_check_bug :
    (runMain c7Cfg "Proj".data 20).1 = 0 ∧
    (runMain c7Cfg "Proj".data 20).2.uniqueNotes =
      [(pathJoin VAULT_DIR "elsewhere/Proj.md".data, "Proj.md".data)] ∧
    ("/out/Proj/".data.isPrefixOf (pathJoin VAULT_DIR "elsewhere/Proj.md".data)) = false ∧
    ((runMain c7Cfg "Proj".data 20).2.output.find?
      (fun pr => basenameL pr.1 = "Proj.md".data)).isNone = true := by
  decide

/-- C1, counterexample: two source files with byte-identical content but
different basenames (`a.png`, `b.png`, both `SAME`) are both exported — the
completed run's output store holds two physical files with that content, so
"exactly one physical file per content" is false as stated (the dedup step
only compares entries sharing the candidate's basename). -/
theorem c1_counterexample :
    (runMain c1Cfg "D.md".data 20).1 = 0 ∧
    ((runMain c1Cfg "D.md".data 20).2.output.filter
      (fun pr => pr.2 = "SAME".data)).length = 2 := by
  decide

/-- C4, counterexample: a link whose target was never found survives the
rewrite pass unchanged — the exported document still contains the wikilink
`gone.png` while no path of the output tree has that basename, so not every
link in every exported document resolves to an existing output path. -/
theorem c4_counterexample :
    (runMain c4Cfg "D.md".data 20).1 = 0 ∧
    ((runMain c4Cfg "D.md".data 20).2.output.find?
      (fun pr => pr.1 = "/out/D/D.md".data)).map
        (fun pr => wikiLinksList pr.2) = some ["gone.png".data, "D".data] ∧
    ((runMain c4Cfg "D.md".data 20).2.output.find?
      (fun pr => basenameL pr.1 = "gone.png".data)).isNone = true := by
  decide

/-- C6, counterexample: a `./`-relative target that cannot be found does
*not* make resolution return a not-found signal — `resolveFilePath` returns
the joined path unchecked, and the run then aborts on the read of the
non-existent note instead of warning and continuing. -/
theorem c6_counterexample :
    resolveFilePath c6Cfg (pathJoin VAULT_DIR "D.md".data) "./missing.md".data initSt =
      .ok (some (pathJoin VAULT_DIR "missing.md".data)) initSt ∧
    fileAbs c6Cfg initSt (pathJoin VAULT_DIR "missing.md".data) = none ∧
    existsAbs c6Cfg initSt (pathJoin VAULT_DIR "missing.md".data) = false ∧
    (runMain c6Cfg "D.md".data 20).2.errlogs =
      ["Error: ENOENT: no such file or directory".data] := by
  decide

/-- C8, counterexample: a non-`ENOENT` I/O failure (unreadable attachment
source) propagates and aborts the run with a terminal `Error:` message — but
the process exit code is 0, not non-zero: `main` catches the error and
returns normally. -/
theorem c8_counterexample :
    (runMain c8Cfg "D.md".data 20).1 = 0 ∧
    (runMain c8Cfg "D.md".data 20).2.errlogs =
      ["Error: EACCES: permission denied".data] := by
  decide

theorem wikiRender_inl (f : Str → Option Str → Str) (l : Str) :
    wikiRender f (l.map Sum.inl) = l := by
  induction l with
  | nil => rfl
  | cons c rest ih =>
      show c :: wikiRender f (rest.map Sum.inl) = c :: rest
      rw [ih]

theorem mdRender_inl (f : Str → Str → Str) (l : Str) :
    mdRender f (l.map Sum.inl) = l := by
  induction l with
  | nil => rfl
  | cons c rest ih =>
      show c :: mdRender f (rest.map Sum.inl) = c :: rest
      rw [ih]

/-- The wikilink replace pass is exactly the per-match splice of the wikilink
decomposition. -/
theorem scanWikiGo_eq (f : Str → Option Str → Str) :
    ∀ n cs, scanWikiGo f n cs = wikiRender f (wikiChunksGo n cs) := by
  intro n
  induction n with
  | zero => intro cs; exact (wikiRender_inl f cs).symm
  | succ n ih =>
      intro cs
      cases cs with
      | nil => rfl
      | cons c rest =>
          cases h : wikiHead (c :: rest) with
          | none =>
              simp only [scanWikiGo, wikiChunksGo, h]
              show c :: scanWikiGo f n rest = c :: wikiRender f (wikiChunksGo n rest)
              rw [ih rest]
          | some val =>
              obtain ⟨⟨l, a⟩, r⟩ := val
              simp only [scanWikiGo, wikiChunksGo, h]
              show f l a ++ scanWikiGo f n r = f l a ++ wikiRender f (wikiChunksGo n r)
              rw [ih r]

theorem scanMdGo_eq (minOne : Bool) (f : Str → Str → Str) :
    ∀ n cs, scanMdGo minOne f n cs = mdRender f (mdChunksGo minOne n cs) := by
  intro n
  induction n with
  | zero => intro cs; exact (mdRender_inl f cs).symm
  | succ n ih =>
      intro cs
      cases cs with
      | nil => rfl
      | cons c rest =>
          cases h : mdHead minOne (c :: rest) with
          | none =>
              simp only [scanMdGo, mdChunksGo, h]
              show c :: scanMdGo minOne f n rest = c :: mdRender f (mdChunksGo minOne n rest)
              rw [ih rest]
          | some val =>
              obtain ⟨⟨t, l⟩, r⟩ := val
              simp only [scanMdGo, mdChunksGo, h]
              show f t l ++ scanMdGo minOne f n r = f t l ++ mdRender f (mdChunksGo minOne n r)
              rw [ih r]

theorem scanWikiR_eq (f : Str → Option Str → Str) (cs : Str) :
    scanWikiR f cs = wikiRender f (wikiChunks cs) :=
  scanWikiGo_eq f cs.length cs

theorem scanMdR_eq (minOne : Bool) (f : Str → Str → Str) (cs : Str) :
    scanMdR minOne f cs = mdRender f (mdChunks minOne cs) :=
  scanMdGo_eq minOne f cs.length cs

/-- C5: the rewrite pass is the per-match splice of both link decompositions
(wikilink pass then markdown pass on its result); every wikilink match is
replaced by its new name with the alias text kept verbatim; every markdown
match keeps its display text verbatim and substitutes only the encoded
target; and in both cases the new name is obtained from the decoded target by
a RenameTable lookup (falling back to the basename, i.e. dropping any path
prefix) followed by exactly one additional hop when the result is itself a
key, and never more. -/
theorem c5_rewrite_links (rf : List (Str × Str)) (content : Str) :
    updateLinksContent rf content =
      mdRender (mdReplMatch rf)
        (mdChunks true (wikiRender (wikiReplMatch rf) (wikiChunks content))) ∧
    (∀ l a, wikiReplMatch rf l a =
      "[[".data ++ wikiNewName rf l ++
        (match a with | some x => '|' :: x | none => []) ++ "]]".data) ∧
    (∀ t l, mdReplMatch rf t l =
      '[' :: t ++ ']' :: '(' :: encodePct (mdNewName rf l) ++ [')']) ∧
    (∀ l, hopBounded rf (wikiBase rf l) (wikiNewName rf l)) ∧
    (∀ l, hopBounded rf (mdBase rf l) (mdNewName rf l)) := by
  refine ⟨?_, fun l a => rfl, fun t l => rfl, ?_, ?_⟩
  · unfold updateLinksContent
    rw [scanMdR_eq, scanWikiR_eq]
  · intro l
    have hdef : wikiNewName rf l =
        match lookupRf rf (wikiBase rf l) with
        | some v => v
        | none => wikiBase rf l := rfl
    rw [hopBounded, hdef]
    cases h : lookupRf rf (wikiBase rf l) with
    | some v => exact Or.inl ⟨v, rfl, rfl⟩
    | none => exact Or.inr ⟨rfl, rfl⟩
  · intro l
    have hdef : mdNewName rf l =
        match lookupRf rf (mdBase rf l) with
        | some v => v
        | none => mdBase rf l := rfl
    rw [hopBounded, hdef]
    cases h : lookupRf rf (mdBase rf l) with
    | some v => exact Or.inl ⟨v, rfl, rfl⟩
    | none => exact Or.inr ⟨rfl, rfl⟩

/-- C8, amended: a missing source on copy (`ENOENT`) only logs a warning and
the computation continues normally; an unreadable source (`EACCES`, standing
for every other I/O failure) propagates as a thrown error; an error reaching
`main`'s catch aborts the run with a terminal `Error:` message and a normal
return, so the process exit code is 0; the exits that are non-zero are the
missing-argument usage path and a `generateUniqueName` read failure, both
`process.exit(1)`. -/
theorem c8_error_policy :
    (∀ cfg s d st, fileAbs cfg st s = none →
      copyFileToOutput cfg s d st =
        .ok () { st with warnings :=
          st.warnings ++ ["[WARNING]: ".data ++ ("Source file not found: ".data ++ s)] }) ∧
    (∀ cfg s d st c, fileAbs cfg st s = some (c, false) →
      copyFileToOutput cfg s d st = .err .eacces st) ∧
    (∀ (m : EM Unit) e st st₁, m st = .err e st₁ →
      tryCatchE m (fun er => consoleError ("Error: ".data ++ errMessage er)) st =
        .ok () { st₁ with errlogs := st₁.errlogs ++ ["Error: ".data ++ errMessage e] }) ∧
    (∀ cfg gas, (runMain cfg [] gas).1 = 1) ∧
    (runMain c8bCfg "D.md".data 20).1 = 1 := by
  refine ⟨?_, ?_, ?_, ?_, ?_⟩
  · intro cfg s d st h
    unfold copyFileToOutput
    rw [tryCatchE_apply, bind_apply]
    have ha : fsAccessR cfg s st = .err .enoent st := by
      unfold fsAccessR
      rw [h]
    rw [ha]
    rfl
  · intro cfg s d st c h
    unfold copyFileToOutput
    rw [tryCatchE_apply, bind_apply]
    have ha : fsAccessR cfg s st = .err .eacces st := by
      unfold fsAccessR
      rw [h]
    rw [ha]
    rfl
  · intro m e st st₁ h
    rw [tryCatchE_apply, h]
    rfl
  · intro cfg gas
    rfl
  · decide

/-- Witness for C8 at concrete inputs: a missing source warns and continues,
the unreadable `locked.png` throws, and a thrown error is caught into a
terminal message. -/
theorem c8_error_policy_witness :
    copyFileToOutput c8Cfg (pathJoin VAULT_DIR "nope.png".data) "/out/D/attachments/nope.png".data initSt =
      .ok () { initSt with warnings :=
        ["[WARNING]: ".data ++ ("Source file not found: ".data ++ pathJoin VAULT_DIR "nope.png".data)] } ∧
    copyFileToOutput c8Cfg (pathJoin VAULT_DIR "_attachments/locked.png".data)
      "/out/D/attachments/locked.png".data initSt = .err .eacces initSt ∧
    tryCatchE (throwJs .eacces) (fun er => consoleError ("Error: ".data ++ errMessage er)) initSt =
      .ok () { initSt with errlogs := ["Error: ".data ++ errMessage .eacces] } ∧
    (runMain c8Cfg [] 20).1 = 1 := by
  have h := c8_error_policy
  exact ⟨h.1 c8Cfg (pathJoin VAULT_DIR "nope.png".data) "/out/D/attachments/nope.png".data initSt (by decide),
    h.2.1 c8Cfg (pathJoin VAULT_DIR "_attachments/locked.png".data)
      "/out/D/attachments/locked.png".data initSt "SECRET".data (by decide),
    h.2.2.1 (throwJs .eacces) .eacces initSt initSt rfl,
    h.2.2.2.1 c8Cfg 20⟩

/-- `findFileInVault` returns exactly the first file, in depth-first listing
order, whose name matches. -/
theorem findFileInVault_eq (fileName : Str) :
    ∀ (t : VTree) (dirPath : Str),
      findFileInVault dirPath t fileName =
        ((dfsFiles dirPath t).find? (fun pr => pr.2 = fileName)).map (fun pr => pr.1) := by
  intro t
  induction t with
  | vfile n c r =>
      intro dirPath
      by_cases h : n = fileName
      · simp [findFileInVault, dfsFiles, h]
      · simp [findFileInVault, dfsFiles, h]
  | vnil => intro dirPath; rfl
  | vcons e rest ihe ihr =>
      intro dirPath
      show (match findFileInVault dirPath e fileName with
            | some r => some r
            | none => findFileInVault dirPath rest fileName) = _
      rw [ihe, ihr, dfsFiles, List.find?_append]
      cases h : (dfsFiles dirPath e).find? (fun pr => pr.2 = fileName) with
      | some pr => simp [h]
      | none => simp [h]
  | vdir n sub ih =>
      intro dirPath
      show findFileInVault (pathJoin dirPath n) sub fileName = _
      rw [ih]
      rfl

/-- C6, amended: the resolution order of `resolveFilePath` — a bare filename
(no separator) is looked up in the global attachments directory and, failing
that, by the depth-first vault search for the first matching name; a `./` or
`../` target is resolved against the referring document's directory; any
other target against the store root.  Only the bare case is
existence-checked, so only it can yield the not-found signal; when it does,
both callers log a warning, leave the reference unresolved, and continue with
the next reference. -/
theorem c6_resolution_order :
    (∀ cfg basePath link (st : St), containsSlash link = false →
      resolveFilePath cfg basePath link st =
        .ok (if existsAbs cfg st (pathJoin ATTACHMENTS_DIR link) = true
             then some (pathJoin ATTACHMENTS_DIR link)
             else ((dfsFiles VAULT_DIR cfg.vault).find?
               (fun pr => pr.2 = link)).map (fun pr => pr.1)) st) ∧
    (∀ cfg basePath link (st : St), containsSlash link = true →
      ("../".data.isPrefixOf link || "./".data.isPrefixOf link) = true →
      resolveFilePath cfg basePath link st =
        .ok (some (pathJoin (dirnameL basePath) link)) st) ∧
    (∀ cfg basePath link (st : St), containsSlash link = true →
      ("../".data.isPrefixOf link || "./".data.isPrefixOf link) = false →
      resolveFilePath cfg basePath link st =
        .ok (some (pathJoin VAULT_DIR link)) st) ∧
    (∀ cfg a rest basePath outputDir (st : St),
      resolveFilePath cfg basePath a st = .ok none st →
      racAtt cfg (a :: rest) basePath outputDir st =
        racAtt cfg rest basePath outputDir
          { st with warnings := st.warnings ++
              ["[WARNING]: ".data ++ ("Attachment not found: ".data ++ a)] }) ∧
    (∀ cfg gas note rest basePath outputDir (st : St),
      st.visitedNotes.contains note = false →
      resolveFilePath cfg basePath note
          { st with visitedNotes := st.visitedNotes ++ [note] } =
        .ok none { st with visitedNotes := st.visitedNotes ++ [note] } →
      walkNotes cfg (gas + 1) (note :: rest) basePath outputDir st =
        walkNotes cfg gas rest basePath outputDir
          { st with
            visitedNotes := st.visitedNotes ++ [note],
            warnings := st.warnings ++
              ["[WARNING]: ".data ++ ("Note not found: ".data ++ note)] }) := by
  refine ⟨?_, ?_, ?_, ?_, ?_⟩
  · intro cfg basePath link st h
    unfold resolveFilePath
    rw [h]
    by_cases hx : existsAbs cfg st (pathJoin ATTACHMENTS_DIR link) = true
    · have ha : fsAccessF cfg (pathJoin ATTACHMENTS_DIR link) st = .ok () st := by
        unfold fsAccessF
        rw [hx]
        rfl
      rw [if_pos rfl, tryCatchE_apply, bind_apply, ha, hx]
      rfl
    · have hx' : existsAbs cfg st (pathJoin ATTACHMENTS_DIR link) = false := by
        revert hx
        cases existsAbs cfg st (pathJoin ATTACHMENTS_DIR link) with
        | true => intro hx; exact absurd rfl hx
        | false => intro _; rfl
      have ha : fsAccessF cfg (pathJoin ATTACHMENTS_DIR link) st = .err .enoent st := by
        unfold fsAccessF
        rw [hx']
        rfl
      rw [if_pos rfl, tryCatchE_apply, bind_apply, ha, hx', findFileInVault_eq]
      rfl
  · intro cfg basePath link st hcs hp
    unfold resolveFilePath
    rw [hcs, hp]
    rfl
  · intro cfg basePath link st hcs hp
    unfold resolveFilePath
    rw [hcs, hp]
    rfl
  · intro cfg a rest basePath outputDir st hres
    simp only [racAtt]
    rw [bind_apply, hres]
    rfl
  · intro cfg gas note rest basePath outputDir st hv hres
    have hv' : ¬ note ∈ st.visitedNotes := by
      simpa using hv
    simp [walkNotes, bind_apply, getSt_apply, modSt_apply, hres, logWarning, hv']

/-- Witness for C6 at concrete inputs: an attachments-dir hit, a vault-search
hit, a relative and a root-relative target, and both callers continuing after
a not-found bare name. -/
theorem c6_resolution_order_witness :
    resolveFilePath c6bCfg (pathJoin VAULT_DIR "D.md".data) "pic.png".data initSt =
      .ok (if existsAbs c6bCfg initSt (pathJoin ATTACHMENTS_DIR "pic.png".data) = true
           then some (pathJoin ATTACHMENTS_DIR "pic.png".data)
           else ((dfsFiles VAULT_DIR c6bCfg.vault).find?
             (fun pr => pr.2 = "pic.png".data)).map (fun pr => pr.1)) initSt ∧
    resolveFilePath c6bCfg (pathJoin VAULT_DIR "D.md".data) "../x/y.png".data initSt =
      .ok (some (pathJoin (dirnameL (pathJoin VAULT_DIR "D.md".data)) "../x/y.png".data)) initSt ∧
    resolveFilePath c6bCfg (pathJoin VAULT_DIR "D.md".data) "sub/stray.png".data initSt =
      .ok (some (pathJoin VAULT_DIR "sub/stray.png".data)) initSt ∧
    racAtt c6bCfg ["nope.png".data] (pathJoin VAULT_DIR "D.md".data) "/out/D".data initSt =
      racAtt c6bCfg [] (pathJoin VAULT_DIR "D.md".data) "/out/D".data
        { initSt with warnings :=
            ["[WARNING]: ".data ++ ("Attachment not found: ".data ++ "nope.png".data)] } ∧
    walkNotes c6bCfg 3 ["nope.md".data] (pathJoin VAULT_DIR "D.md".data) "/out/D".data initSt =
      walkNotes c6bCfg 2 [] (pathJoin VAULT_DIR "D.md".data) "/out/D".data
        { initSt with
          visitedNotes := ["nope.md".data],
          warnings := ["[WARNING]: ".data ++ ("Note not found: ".data ++ "nope.md".data)] } := by
  have h := c6_resolution_order
  exact ⟨h.1 c6bCfg (pathJoin VAULT_DIR "D.md".data) "pic.png".data initSt (by decide),
    h.2.1 c6bCfg (pathJoin VAULT_DIR "D.md".data) "../x/y.png".data initSt (by decide) (by decide),
    h.2.2.1 c6bCfg (pathJoin VAULT_DIR "D.md".data) "sub/stray.png".data initSt (by decide) (by decide),
    h.2.2.2.1 c6bCfg "nope.png".data [] (pathJoin VAULT_DIR "D.md".data) "/out/D".data initSt (by decide),
    h.2.2.2.2 c6bCfg 2 "nope.md".data [] (pathJoin VAULT_DIR "D.md".data) "/out/D".data initSt (by decide) (by decide)⟩

/-- Under readable files the per-entry comparison is pure: it returns exactly
byte equality and leaves the state unchanged. -/
theorem compareFiles_pure (cfg : Cfg) (st : St) (e r c1 c2 : Str)
    (he : fileAbs cfg st e = some (c1, true))
    (hr : fileAbs cfg st r = some (c2, true)) :
    compareFiles cfg e r st = .ok (decide (c1 = c2)) st := by
  by_cases hl : c1.length = c2.length
  · by_cases hc : c1 = c2
    · simp [compareFiles, tryCatchE_apply, bind_apply, fsStatSize, fsReadFile, he, hr, hl, hc,
        pure_apply]
    · simp [compareFiles, tryCatchE_apply, bind_apply, fsStatSize, fsReadFile, he, hr, hl, hc,
        pure_apply]
  · have hc : c1 ≠ c2 := fun hx => hl (by rw [hx])
    simp [compareFiles, tryCatchE_apply, bind_apply, fsStatSize, fsReadFile, he, hr, hl, hc,
      pure_apply]

/-- Under readable files the content-match loop is pure: it returns the first
registry entry with the candidate's basename and bytes, scanning in
insertion order, and leaves the state unchanged. -/
theorem contentScan_pure (cfg : Cfg) (st : St) (rn rp c : Str)
    (hrp : fileAbs cfg st rp = some (c, true)) :
    ∀ l : List (Str × Str),
      (∀ pr ∈ l, basenameL pr.1 = rn → ∃ c', fileAbs cfg st pr.1 = some (c', true)) →
      contentScan cfg rn rp l st =
        .ok ((l.find? (contentHit cfg st rn c)).map (fun pr => pr.1)) st := by
  intro l
  induction l with
  | nil => intro _; rfl
  | cons hd tl ih =>
      intro hall
      obtain ⟨e, ref⟩ := hd
      by_cases hb : basenameL e = rn
      · obtain ⟨c', hc'⟩ := hall (e, ref) (by simp) hb
        have hcmp := compareFiles_pure cfg st e rp c' c hc' hrp
        by_cases heq : c' = c
        · have hhit : contentHit cfg st rn c (e, ref) = true := by
            simp [contentHit, hb, heq ▸ hc']
          simp [contentScan, bind_apply, hcmp, hb, heq, List.find?, hhit, pure_apply]
        · have hhit : contentHit cfg st rn c (e, ref) = false := by
            simp only [contentHit]
            have : fileAbs cfg st e ≠ some (c, true) := by
              rw [hc']
              intro hx
              exact heq (by injection hx with h1; exact congrArg Prod.fst h1)
            simp [hb, this]
          have ihr := ih (fun pr hpr => hall pr (by simp [hpr]))
          simp [contentScan, bind_apply, hcmp, hb, heq, List.find?, hhit, ihr]
      · have hhit : contentHit cfg st rn c (e, ref) = false := by
          simp [contentHit, hb]
        have ihr := ih (fun pr hpr => hall pr (by simp [hpr]))
        simp [contentScan, bind_apply, hb, List.find?, hhit, ihr]


/-- C1, amended: when a reference resolves to a file byte-identical to an
already-exported entry *with the same basename*, the dedup step of either
registry reuses that entry: the loop continues with only a log line added —
no copy, no rename, no registry growth, no RenameTable entry.  (Byte-identical
files under different basenames are not deduplicated; see the
counterexample.) -/
theorem c1_dedup_skip :
    (∀ cfg a rest basePath outputDir (st : St) rp c,
      resolveFilePath cfg basePath a st = .ok (some rp) st →
      fileAbs cfg st rp = some (c, true) →
      (∀ pr ∈ st.uniqueAttachments, basenameL pr.1 = basenameL rp →
        ∃ c2, fileAbs cfg st pr.1 = some (c2, true)) →
      (∃ pr ∈ st.uniqueAttachments, contentHit cfg st (basenameL rp) c pr = true) →
      racAtt cfg (a :: rest) basePath outputDir st =
        racAtt cfg rest basePath outputDir
          { st with infos := st.infos ++
              ["Attachment already exists (same content): ".data ++ a] }) ∧
    (∀ cfg gas note rest basePath outputDir (st st1 : St) rp c,
      st.visitedNotes.contains note = false →
      st1 = { st with visitedNotes := st.visitedNotes ++ [note] } →
      resolveFilePath cfg basePath note st1 = .ok (some rp) st1 →
      (!("..".data.isPrefixOf (relativeL cfg.cwd outputDir (stemL (basenameL rp)))) &&
        !(isAbsL (relativeL cfg.cwd outputDir (stemL (basenameL rp))))) = false →
      fileAbs cfg st1 rp = some (c, true) →
      (∀ pr ∈ st1.uniqueNotes, basenameL pr.1 = basenameL rp →
        ∃ c2, fileAbs cfg st1 pr.1 = some (c2, true)) →
      (∃ pr ∈ st1.uniqueNotes, contentHit cfg st1 (basenameL rp) c pr = true) →
      walkNotes cfg (gas + 1) (note :: rest) basePath outputDir st =
        walkNotes cfg gas rest basePath outputDir
          { st1 with infos := st1.infos ++
              ["Note already exists (same content): ".data ++ note] }) := by
  constructor
  · intro cfg a rest basePath outputDir st rp c hres hrd hall hex
    have hscan := contentScan_pure cfg st (basenameL rp) rp c hrd st.uniqueAttachments hall
    have hq : ∃ q, st.uniqueAttachments.find? (contentHit cfg st (basenameL rp) c) = some q := by
      obtain ⟨pr0, hmem, hhit⟩ := hex
      exact Option.isSome_iff_exists.mp (List.find?_isSome.mpr ⟨pr0, hmem, hhit⟩)
    obtain ⟨q, hq⟩ := hq
    simp [racAtt, bind_apply, hres, getSt_apply, hscan, hq, consoleLog, modSt_apply, pure_apply]
  · intro cfg gas note rest basePath outputDir st st1 rp c hv hst1 hres hplace hrd hall hex
    have hv2 : ¬ note ∈ st.visitedNotes := by
      simpa using hv
    have hscan := contentScan_pure cfg st1 (basenameL rp) rp c hrd st1.uniqueNotes hall
    have hq : ∃ q, st1.uniqueNotes.find? (contentHit cfg st1 (basenameL rp) c) = some q := by
      obtain ⟨pr0, hmem, hhit⟩ := hex
      exact Option.isSome_iff_exists.mp (List.find?_isSome.mpr ⟨pr0, hmem, hhit⟩)
    obtain ⟨q, hq⟩ := hq
    have hplace2 : ¬("..".data.isPrefixOf (relativeL cfg.cwd outputDir (stemL (basenameL rp))) = false ∧
        isAbsL (relativeL cfg.cwd outputDir (stemL (basenameL rp))) = false) := by
      intro hab
      rw [hab.1, hab.2] at hplace
      simp at hplace
    subst hst1
    simp [walkNotes, bind_apply, getSt_apply, modSt_apply, hv2, hres, hplace2, hscan, hq,
      consoleLog, pure_apply]

/-- Witness for C1 at a concrete store: a second byte-identical `a.png` (and
`N.md`) is skipped by the dedup step of each registry. -/
theorem c1_dedup_skip_witness :
    racAtt c1bCfg ["dup/a.png".data] (pathJoin VAULT_DIR "D.md".data) "/out/D".data c1bSt =
      racAtt c1bCfg [] (pathJoin VAULT_DIR "D.md".data) "/out/D".data
        { c1bSt with infos :=
            ["Attachment already exists (same content): ".data ++ "dup/a.png".data] } ∧
    walkNotes c1bCfg 3 ["other/N.md".data] (pathJoin VAULT_DIR "D.md".data) "/out/D".data c1bSt =
      walkNotes c1bCfg 2 [] (pathJoin VAULT_DIR "D.md".data) "/out/D".data
        { { c1bSt with visitedNotes := ["other/N.md".data] } with infos :=
            ["Note already exists (same content): ".data ++ "other/N.md".data] } := by
  have h := c1_dedup_skip
  constructor
  · refine h.1 c1bCfg "dup/a.png".data [] (pathJoin VAULT_DIR "D.md".data) "/out/D".data c1bSt
      (pathJoin VAULT_DIR "dup/a.png".data) "SAME".data (by decide) (by decide) ?_ ?_
    · intro pr hpr hb
      rw [show c1bSt.uniqueAttachments =
        [("/out/D/attachments/a.png".data, "a.png".data)] from rfl, List.mem_singleton] at hpr
      subst hpr
      exact ⟨"SAME".data, by decide⟩
    · exact ⟨("/out/D/attachments/a.png".data, "a.png".data), by decide, by decide⟩
  · refine h.2 c1bCfg 2 "other/N.md".data [] (pathJoin VAULT_DIR "D.md".data) "/out/D".data c1bSt
      { c1bSt with visitedNotes := ["other/N.md".data] }
      (pathJoin VAULT_DIR "other/N.md".data) "X".data (by decide) (by decide) (by decide)
      (by decide) (by decide) ?_ ?_
    · intro pr hpr hb
      rw [show ({ c1bSt with visitedNotes := ["other/N.md".data] } : St).uniqueNotes =
        [("/out/D/references/N.md".data, "N.md".data)] from rfl, List.mem_singleton] at hpr
      subst hpr
      exact ⟨"X".data, by decide⟩
    · exact ⟨("/out/D/references/N.md".data, "N.md".data), by decide, by decide⟩


theorem find?_assocMap (k v : Str) (m : List (Str × Str)) :
    ((m.map (fun pr => if pr.1 = k then (k, v) else pr)).find? (fun pr => pr.1 = k)) =
      if (m.find? (fun pr => pr.1 = k)).isSome then some (k, v) else none := by
  rw [List.find?_map]
  have hp : ((fun pr => decide (pr.1 = k)) ∘ (fun pr => if pr.1 = k then (k, v) else pr)) =
      (fun pr : Str × Str => decide (pr.1 = k)) := by
    funext pr
    by_cases h : pr.1 = k
    · simp [h]
    · simp [h]
  rw [hp]
  cases hf : m.find? (fun pr => decide (pr.1 = k)) with
  | none => simp
  | some q =>
      have hq : q.1 = k := by
        have := List.find?_some hf
        simpa using this
      simp [hq]

theorem find?_assocMap_other (k v k' : Str) (hne : k' ≠ k) (m : List (Str × Str)) :
    ((m.map (fun pr => if pr.1 = k then (k, v) else pr)).find? (fun pr => pr.1 = k')) =
      m.find? (fun pr => pr.1 = k') := by
  rw [List.find?_map]
  have hp : ((fun pr => decide (pr.1 = k')) ∘ (fun pr => if pr.1 = k then (k, v) else pr)) =
      (fun pr : Str × Str => decide (pr.1 = k')) := by
    funext pr
    by_cases h : pr.1 = k
    · have : ¬ ((k : Str) = k') := fun hx => hne hx.symm
      simp [h, this]
    · simp [h]
  rw [hp]
  cases hf : m.find? (fun pr => decide (pr.1 = k')) with
  | none => simp
  | some q =>
      have hq : q.1 = k' := by
        have := List.find?_some hf
        simpa using this
      have : ¬ q.1 = k := fun hx => hne (hq ▸ hx ▸ rfl)
      simp [this]

/-- Lookup of the key just written by `assocSet`. -/
theorem assocFind_set_self (m : List (Str × Str)) (k v : Str) :
    (((assocSet m k v).find? (fun pr => pr.1 = k)).map (fun pr => pr.2)) = some v := by
  by_cases h : (m.find? (fun pr => pr.1 = k)).isSome
  · rw [show assocSet m k v = m.map (fun pr => if pr.1 = k then (k, v) else pr) from by
      simp [assocSet, h]]
    rw [find?_assocMap, if_pos h]
    rfl
  · have hn : m.find? (fun pr => decide (pr.1 = k)) = none := by
      cases hx : m.find? (fun pr => decide (pr.1 = k)) with
      | none => rfl
      | some q => rw [hx] at h; simp at h
    simp [assocSet, h, List.find?_append, hn, List.find?]

/-- Lookup of a different key is unaffected by `assocSet`. -/
theorem assocFind_set_other (m : List (Str × Str)) (k v k' : Str) (hne : k' ≠ k) :
    ((assocSet m k v).find? (fun pr => pr.1 = k')) = m.find? (fun pr => pr.1 = k') := by
  by_cases h : (m.find? (fun pr => pr.1 = k)).isSome
  · simp [assocSet, h, find?_assocMap_other k v k' hne]
  · simp only [assocSet, h, if_false, Bool.false_eq_true]
    rw [List.find?_append]
    cases hx : m.find? (fun pr => decide (pr.1 = k')) with
    | some q => simp
    | none =>
        have hkk : ¬ ((k : Str) = k') := fun hx2 => hne hx2.symm
        simp [List.find?, hkk]

/-- A vault path's `fileAbs` does not depend on the run state. -/
theorem fileAbs_underVault (cfg : Cfg) (p : Str) (h : underVault p = true)
    (st st' : St) : fileAbs cfg st p = fileAbs cfg st' p := by
  unfold fileAbs
  rw [h]
  simp

/-- A readable source copies cleanly: the destination is written and nothing
else changes. -/
theorem copyFileToOutput_ok (cfg : Cfg) (p d c : Str) (st : St)
    (h : fileAbs cfg st p = some (c, true)) :
    copyFileToOutput cfg p d st = .ok () { st with output := assocSet st.output d c } := by
  have hr : fsReadFile cfg p st = .ok c st := by
    unfold fsReadFile
    rw [h]
  have ha : fsAccessR cfg p st = .ok () st := by
    unfold fsAccessR
    rw [h]
  have hc : fsCopyFile cfg p d st = .ok () { st with output := assocSet st.output d c } := by
    unfold fsCopyFile
    rw [bind_apply, hr]
    rfl
  unfold copyFileToOutput
  rw [tryCatchE_apply, bind_apply, ha]
  simp [hc]

/-- A readable file yields its content-derived unique name with no state
change. -/
theorem generateUniqueName_ok (cfg : Cfg) (p c : Str) (st : St)
    (h : fileAbs cfg st p = some (c, true)) :
    generateUniqueName cfg p st = .ok (stemL p ++ '_' :: hash8 c ++ extnameL p) st := by
  unfold generateUniqueName
  rw [tryCatchE_apply, bind_apply]
  have hr : fsReadFile cfg p st = .ok c st := by
    unfold fsReadFile
    rw [h]
  rw [hr]


/-- C2: the collision branch.  When a reference resolves to a file whose
basename equals an already-exported entry's but whose bytes differ, the
existing physical file is renamed to `stem_<8-hex-of-SHA-256(content)>.ext`
of *its* content, its registry entry and RenameTable entry are updated, and
the new file is exported under its own freshly computed content-derived
unique name; with distinct digests both files survive as two distinct output
files, neither overwriting the other.  Stated for the attachments loop; the
notes loop below performs the identical bookkeeping. -/
theorem c2_collision_rename (cfg : Cfg) (a : Str) (rest : List Str)
    (basePath outputDir : Str) (st : St) (rp c1 p0 r0 c0 : Str)
    (hres : resolveFilePath cfg basePath a st = .ok (some rp) st)
    (hrv : underVault rp = true)
    (hrd : fileAbs cfg st rp = some (c1, true))
    (hnohit : st.uniqueAttachments.find? (contentHit cfg st (basenameL rp) c1) = none)
    (hall : ∀ pr ∈ st.uniqueAttachments, basenameL pr.1 = basenameL rp →
      ∃ c2, fileAbs cfg st pr.1 = some (c2, true))
    (hfind : st.uniqueAttachments.find? (fun pr => basenameL pr.1 = basenameL rp) = some (p0, r0))
    (hp0 : fileAbs cfg st p0 = some (c0, true))
    (hout : (st.output.find? (fun pr => pr.1 = p0)).map (fun pr => pr.2) = some c0)
    (hfrom : pathJoin (pathJoin outputDir "attachments".data) (basenameL p0) = p0)
    (hany : (assocSet (assocDelete st.uniqueAttachments p0)
        (pathJoin (pathJoin outputDir "attachments".data)
          (stemL p0 ++ '_' :: hash8 c0 ++ extnameL p0)) r0).any
        (fun pr => collisionName (stemL (basenameL rp)) (basenameL pr.1)) = true)
    (hpne : pathJoin (pathJoin outputDir "attachments".data)
        (stemL rp ++ '_' :: hash8 c1 ++ extnameL rp) ≠
      pathJoin (pathJoin outputDir "attachments".data)
        (stemL p0 ++ '_' :: hash8 c0 ++ extnameL p0)) :
    racAtt cfg (a :: rest) basePath outputDir st =
      racAtt cfg rest basePath outputDir
        { st with
          output := assocSet (assocSet (assocDelete st.output p0)
            (pathJoin (pathJoin outputDir "attachments".data)
              (stemL p0 ++ '_' :: hash8 c0 ++ extnameL p0)) c0)
            (pathJoin (pathJoin outputDir "attachments".data)
              (stemL rp ++ '_' :: hash8 c1 ++ extnameL rp)) c1,
          uniqueAttachments := assocSet (assocSet (assocDelete st.uniqueAttachments p0)
            (pathJoin (pathJoin outputDir "attachments".data)
              (stemL p0 ++ '_' :: hash8 c0 ++ extnameL p0)) r0)
            (pathJoin (pathJoin outputDir "attachments".data)
              (stemL rp ++ '_' :: hash8 c1 ++ extnameL rp)) a,
          renamedFiles := assocSet (assocSet st.renamedFiles r0
            (stemL p0 ++ '_' :: hash8 c0 ++ extnameL p0)) a
            (stemL rp ++ '_' :: hash8 c1 ++ extnameL rp) } ∧
    (((assocSet (assocSet (assocDelete st.output p0)
        (pathJoin (pathJoin outputDir "attachments".data)
          (stemL p0 ++ '_' :: hash8 c0 ++ extnameL p0)) c0)
        (pathJoin (pathJoin outputDir "attachments".data)
          (stemL rp ++ '_' :: hash8 c1 ++ extnameL rp)) c1).find?
        (fun pr => pr.1 = pathJoin (pathJoin outputDir "attachments".data)
          (stemL p0 ++ '_' :: hash8 c0 ++ extnameL p0))).map (fun pr => pr.2) = some c0) ∧
    (((assocSet (assocSet (assocDelete st.output p0)
        (pathJoin (pathJoin outputDir "attachments".data)
          (stemL p0 ++ '_' :: hash8 c0 ++ extnameL p0)) c0)
        (pathJoin (pathJoin outputDir "attachments".data)
          (stemL rp ++ '_' :: hash8 c1 ++ extnameL rp)) c1).find?
        (fun pr => pr.1 = pathJoin (pathJoin outputDir "attachments".data)
          (stemL rp ++ '_' :: hash8 c1 ++ extnameL rp))).map (fun pr => pr.2) = some c1) := by
  have hrd_any : ∀ stX : St, fileAbs cfg stX rp = some (c1, true) := fun stX =>
    (fileAbs_underVault cfg rp hrv stX st).trans hrd
  have hscan := contentScan_pure cfg st (basenameL rp) rp c1 hrd st.uniqueAttachments hall
  rw [hnohit] at hscan
  have hgen0 := generateUniqueName_ok cfg p0 c0 st hp0
  have hgen1 : ∀ stX : St, generateUniqueName cfg rp stX =
      .ok (stemL rp ++ '_' :: hash8 c1 ++ extnameL rp) stX := fun stX =>
    generateUniqueName_ok cfg rp c1 stX (hrd_any stX)
  have hcopy : ∀ stX : St, copyFileToOutput cfg rp
      (pathJoin (pathJoin outputDir "attachments".data)
        (stemL rp ++ '_' :: hash8 c1 ++ extnameL rp)) stX =
      .ok () { stX with
        output := assocSet stX.output
          (pathJoin (pathJoin outputDir "attachments".data)
            (stemL rp ++ '_' :: hash8 c1 ++ extnameL rp)) c1 } := fun stX =>
    copyFileToOutput_ok cfg rp _ c1 stX (hrd_any stX)
  have hren : fsRename (pathJoin (pathJoin outputDir "attachments".data) (basenameL p0))
      (pathJoin (pathJoin outputDir "attachments".data)
        (stemL p0 ++ '_' :: hash8 c0 ++ extnameL p0)) st =
      .ok () { st with
        output := assocSet (assocDelete st.output p0)
          (pathJoin (pathJoin outputDir "attachments".data)
            (stemL p0 ++ '_' :: hash8 c0 ++ extnameL p0)) c0 } := by
    unfold fsRename
    rw [hfrom, hout]
  refine ⟨?_, ?_, ?_⟩
  · have hlit : ("attachments".data : List Char) =
        ['a', 't', 't', 'a', 'c', 'h', 'm', 'e', 'n', 't', 's'] := rfl
    simp only [hlit] at hren hcopy hany
    simp only [racAtt, bind_apply, hres, getSt_apply, hscan, Option.map_none', hfind, hgen0,
      modSt_apply, pure_apply]
    rw [hren]
    simp only [if_pos hany, bind_apply, hgen1, modSt_apply, pure_apply]
    rw [hcopy]
  · rw [assocFind_set_other _ _ _ _ (fun hx => hpne hx.symm), assocFind_set_self]
  · rw [assocFind_set_self]


/-- Witness for C2 at a concrete store: a new `x.png` with different bytes
collides with the exported `x.png`; the old file is renamed to its own
hash-suffixed name, the new one lands under its hash-suffixed name, and both
contents survive under distinct output paths. -/
theorem c2_collision_rename_witness :
    racAtt c2bCfg ["x.png".data] (pathJoin VAULT_DIR "D.md".data) "/out".data c2bSt =
      racAtt c2bCfg [] (pathJoin VAULT_DIR "D.md".data) "/out".data
        { c2bSt with
          output := assocSet (assocSet (assocDelete c2bSt.output c2bP0) c2bDest0 "OLD".data)
            c2bDest1 "NEW".data,
          uniqueAttachments := assocSet (assocSet (assocDelete c2bSt.uniqueAttachments c2bP0)
            c2bDest0 "y/x.png".data) c2bDest1 "x.png".data,
          renamedFiles := assocSet (assocSet c2bSt.renamedFiles "y/x.png".data c2bRen0)
            "x.png".data c2bRen1 } ∧
    ((assocSet (assocSet (assocDelete c2bSt.output c2bP0) c2bDest0 "OLD".data)
        c2bDest1 "NEW".data).find? (fun pr => pr.1 = c2bDest0)).map (fun pr => pr.2) =
      some "OLD".data ∧
    ((assocSet (assocSet (assocDelete c2bSt.output c2bP0) c2bDest0 "OLD".data)
        c2bDest1 "NEW".data).find? (fun pr => pr.1 = c2bDest1)).map (fun pr => pr.2) =
      some "NEW".data := by
  refine c2_collision_rename c2bCfg "x.png".data [] (pathJoin VAULT_DIR "D.md".data) "/out".data
    c2bSt c2bRp "NEW".data c2bP0 "y/x.png".data "OLD".data (by decide) (by decide) (by decide)
    (by decide) ?_ (by decide) (by decide) (by decide) (by decide) (by decide) (by decide)
  intro pr hpr hb
  rw [show c2bSt.uniqueAttachments = [(c2bP0, "y/x.png".data)] from rfl,
    List.mem_singleton] at hpr
  subst hpr
  exact ⟨"OLD".data, by decide⟩


theorem visSub_refl (s : St) : visSub s s := fun _ h => h

theorem visSub_trans {s t u : St} (h1 : visSub s t) (h2 : visSub t u) : visSub s u :=
  fun n h => h2 n (h1 n h)

theorem visSub_of_eq {s t : St} (h : t.visitedNotes = s.visitedNotes) : visSub s t :=
  fun n hn => h ▸ hn

theorem visSub_append (s : St) (l : List Str) :
    visSub s { s with visitedNotes := s.visitedNotes ++ l } :=
  fun n hn => List.mem_append_left l hn

theorem filter_len_mono {α : Type} (p q : α → Bool) (h : ∀ a, q a = true → p a = true) :
    ∀ l : List α, (l.filter q).length ≤ (l.filter p).length := by
  intro l
  induction l with
  | nil => simp
  | cons a t ih =>
      by_cases hq : q a = true
      · rw [List.filter_cons_of_pos hq, List.filter_cons_of_pos (h a hq)]
        simpa using ih
      · rw [List.filter_cons_of_neg (by simpa using hq)]
        by_cases hp : p a = true
        · rw [List.filter_cons_of_pos hp]
          exact le_trans ih (by simp)
        · rw [List.filter_cons_of_neg (by simpa using hp)]
          exact ih

theorem filter_len_strict {α : Type} (p q : α → Bool) (h : ∀ a, q a = true → p a = true)
    (a : α) (hpa : p a = true) (hqa : q a = false) :
    ∀ l : List α, a ∈ l → (l.filter q).length < (l.filter p).length := by
  intro l
  induction l with
  | nil => simp
  | cons b t ih =>
      intro hmem
      rcases List.mem_cons.mp hmem with hb | ht
      · subst hb
        rw [List.filter_cons_of_pos hpa, List.filter_cons_of_neg (by simp [hqa])]
        exact Nat.lt_succ_of_le (filter_len_mono p q h t)
      · by_cases hqb : q b = true
        · rw [List.filter_cons_of_pos hqb, List.filter_cons_of_pos (h b hqb)]
          simpa using ih ht
        · rw [List.filter_cons_of_neg (by simpa using hqb)]
          by_cases hpb : p b = true
          · rw [List.filter_cons_of_pos hpb]
            exact Nat.lt_succ_of_lt (ih ht)
          · rw [List.filter_cons_of_neg (by simpa using hpb)]
            exact ih ht

theorem unvis_mono (cfg : Cfg) {s t : St} (h : visSub s t) : unvis cfg t ≤ unvis cfg s := by
  unfold unvis
  refine filter_len_mono _ _ ?_ _
  intro a ha
  simp only [decide_eq_true_eq] at ha ⊢
  intro hc
  exact ha (by simpa using h a (by simpa using hc))

theorem unvis_strict (cfg : Cfg) {s t : St} (h : visSub s t) (n : Str)
    (hall : n ∈ allNoteStrs cfg) (hns : ¬ n ∈ s.visitedNotes) (hnt : n ∈ t.visitedNotes) :
    unvis cfg t < unvis cfg s := by
  unfold unvis
  refine filter_len_strict _ _ ?_ n ?_ ?_ _ (List.mem_dedup.mpr hall)
  · intro a ha
    simp only [decide_eq_true_eq] at ha ⊢
    intro hc
    exact ha (by simpa using h a (by simpa using hc))
  · simpa using hns
  · simpa using hnt

theorem vGetEntry_file_mem {t : VTree} {m n c : Str} {r : Bool}
    (h : vGetEntry t m = some (.vfile n c r)) : c ∈ vaultContentsL t := by
  induction t with
  | vnil => simp [vGetEntry] at h
  | vfile n0 c0 r0 =>
      by_cases he : n0 = m
      · simp [vGetEntry, he] at h
        simp [vaultContentsL, h.2.1]
      · simp [vGetEntry, he] at h
  | vdir n0 sub ih =>
      by_cases he : n0 = m
      · simp [vGetEntry, he] at h
      · simp [vGetEntry, he] at h
  | vcons e rest ih1 ih2 =>
      rw [vGetEntry] at h
      cases he : vGetEntry e m with
      | some x =>
          rw [he] at h
          simp only [Option.some.injEq] at h
          subst h
          exact List.mem_append_left _ (ih1 he)
      | none =>
          rw [he] at h
          exact List.mem_append_right _ (ih2 h)

theorem vGetEntry_dir_sub {t : VTree} {m n : Str} {sub : VTree}
    (h : vGetEntry t m = some (.vdir n sub)) :
    ∀ c, c ∈ vaultContentsL sub → c ∈ vaultContentsL t := by
  induction t with
  | vnil => simp [vGetEntry] at h
  | vfile n0 c0 r0 =>
      by_cases he : n0 = m
      · simp [vGetEntry, he] at h
      · simp [vGetEntry, he] at h
  | vdir n0 sub0 ih =>
      by_cases he : n0 = m
      · simp [vGetEntry, he] at h
        intro c hc
        simpa [vaultContentsL, h.2] using hc
      · simp [vGetEntry, he] at h
  | vcons e rest ih1 ih2 =>
      rw [vGetEntry] at h
      cases he : vGetEntry e m with
      | some x =>
          rw [he] at h
          simp only [Option.some.injEq] at h
          subst h
          exact fun c hc => List.mem_append_left _ (ih1 he c hc)
      | none =>
          rw [he] at h
          exact fun c hc => List.mem_append_right _ (ih2 h c hc)

theorem vGetPath_content : ∀ (comps : List Str) (t : VTree) (n c : Str) (r : Bool),
    vGetPath t comps = some (.vfile n c r) → c ∈ vaultContentsL t := by
  intro comps
  induction comps with
  | nil => intro t n c r h; simp [vGetPath] at h
  | cons c0 cs ih =>
      intro t n c r h
      rw [vGetPath] at h
      cases he : vGetEntry t c0 with
      | none => rw [he] at h; exact absurd h (by simp)
      | some e =>
          rw [he] at h
          cases cs with
          | nil =>
              simp only [Option.some.injEq] at h
              subst h
              exact vGetEntry_file_mem he
          | cons c1 cs1 =>
              cases e with
              | vfile a b d => exact absurd h (by simp)
              | vnil => exact absurd h (by simp)
              | vcons x y => exact absurd h (by simp)
              | vdir nm sub =>
                  exact vGetEntry_dir_sub he c (ih sub n c r h)

theorem fileAbs_content (cfg : Cfg) (st : St) (p c : Str) (b : Bool)
    (hout : outOk cfg st) (h : fileAbs cfg st p = some (c, b)) :
    c ∈ vaultContentsL cfg.vault := by
  unfold fileAbs at h
  by_cases hv : underVault p = true
  · rw [if_pos hv] at h
    cases hg : vGetPath cfg.vault (vaultRel p) with
    | none => rw [hg] at h; exact absurd h (by simp)
    | some e =>
        rw [hg] at h
        cases e with
        | vfile n c0 r =>
            simp only [Option.some.injEq, Prod.mk.injEq] at h
            exact h.1 ▸ vGetPath_content _ _ _ _ _ hg
        | vnil => exact absurd h (by simp)
        | vcons x y => exact absurd h (by simp)
        | vdir n sub => exact absurd h (by simp)
  · rw [if_neg hv] at h
    cases hf : st.output.find? (fun pr => pr.1 = p) with
    | none => rw [hf] at h; exact absurd h (by simp)
    | some pr =>
        rw [hf] at h
        simp only [Option.map_some', Option.some.injEq, Prod.mk.injEq] at h
        exact h.1 ▸ hout pr (List.mem_of_find?_eq_some hf)

theorem mem_le_foldr_max (x : Nat) : ∀ l : List Nat, x ∈ l → x ≤ l.foldr Nat.max 0 := by
  intro l
  induction l with
  | nil => simp
  | cons a t ih =>
      intro h
      rcases List.mem_cons.mp h with h1 | h2
      · subst h1; exact Nat.le_max_left _ _
      · exact le_trans (ih h2) (Nat.le_max_right _ _)

theorem notes_sub_all (cfg : Cfg) (c : Str) (hc : c ∈ vaultContentsL cfg.vault) :
    ∀ n ∈ (parseMd c).2, n ∈ allNoteStrs cfg := by
  intro n hn
  unfold allNoteStrs
  exact List.mem_flatten.mpr ⟨(parseMd c).2, List.mem_map.mpr ⟨c, hc, rfl⟩, hn⟩

theorem notes_len_le (cfg : Cfg) (c : Str) (hc : c ∈ vaultContentsL cfg.vault) :
    (parseMd c).2.length ≤ maxNotesLen cfg := by
  unfold maxNotesLen
  exact mem_le_foldr_max _ _ (List.mem_map.mpr ⟨c, hc, rfl⟩)

theorem resolveFilePath_shape (cfg : Cfg) (bp l : Str) (st : St) :
    ∃ v, resolveFilePath cfg bp l st = .ok v st := by
  unfold resolveFilePath tryCatchE fsAccessF
  by_cases h1 : containsSlash l = false
  · rw [if_pos h1]
    simp only [bind_apply]
    by_cases h2 : existsAbs cfg st (pathJoin ATTACHMENTS_DIR l) = true
    · simp only [h2, if_true, pure_apply]
      exact ⟨_, rfl⟩
    · simp only [if_neg h2, pure_apply]
      exact ⟨_, rfl⟩
  · rw [if_neg h1]
    by_cases h2 : ("../".data.isPrefixOf l || "./".data.isPrefixOf l) = true
    · rw [if_pos h2, pure_apply]
      exact ⟨_, rfl⟩
    · rw [if_neg h2, pure_apply]
      exact ⟨_, rfl⟩

theorem compareFiles_shape (cfg : Cfg) (e r : Str) (st : St) :
    ∃ b st2, compareFiles cfg e r st = .ok b st2 ∧
      st2.output = st.output ∧ st2.visitedNotes = st.visitedNotes := by
  unfold compareFiles tryCatchE fsStatSize fsReadFile
  simp only [bind_apply, pure_apply, modSt_apply, consoleError]
  cases h1 : fileAbs cfg st e with
  | none =>
      simp only [h1]
      exact ⟨false, _, rfl, rfl, rfl⟩
  | some pr1 =>
      obtain ⟨c1, b1⟩ := pr1
      simp only [h1]
      cases h2 : fileAbs cfg st r with
      | none =>
          simp only [h2]
          exact ⟨false, _, rfl, rfl, rfl⟩
      | some pr2 =>
          obtain ⟨c2, b2⟩ := pr2
          simp only [h2]
          by_cases hlen : c1.length = c2.length
          · cases b1 with
            | false =>
                simp only [if_pos hlen, bind_apply, pure_apply, modSt_apply, h1]
                exact ⟨false, _, rfl, rfl, rfl⟩
            | true =>
                cases b2 with
                | false =>
                    simp only [if_pos hlen, bind_apply, pure_apply, modSt_apply, h1, h2]
                    exact ⟨false, _, rfl, rfl, rfl⟩
                | true =>
                    simp only [if_pos hlen, bind_apply, pure_apply, modSt_apply, h1, h2]
                    exact ⟨_, st, rfl, rfl, rfl⟩
          · simp only [if_neg hlen]
            exact ⟨false, st, rfl, rfl, rfl⟩

theorem contentScan_shape (cfg : Cfg) (rn rp : Str) :
    ∀ (m : List (Str × Str)) (st : St), ∃ v st2,
      contentScan cfg rn rp m st = .ok v st2 ∧
      st2.output = st.output ∧ st2.visitedNotes = st.visitedNotes := by
  intro m
  induction m with
  | nil => intro st; exact ⟨none, st, rfl, rfl, rfl⟩
  | cons pr rest ih =>
      obtain ⟨ep, aref⟩ := pr
      intro st
      rw [contentScan]
      by_cases hb : basenameL ep = rn
      · obtain ⟨b, st2, hc, ho, hv⟩ := compareFiles_shape cfg ep rp st
        cases b with
        | true =>
            simp only [if_pos hb, bind_apply, hc, eq_self_iff_true, if_true, pure_apply]
            exact ⟨some ep, st2, rfl, ho, hv⟩
        | false =>
            obtain ⟨v, st3, h3, ho3, hv3⟩ := ih st2
            simp only [if_pos hb, bind_apply, hc, Bool.false_eq_true, if_false, h3]
            exact ⟨v, st3, rfl, ho3.trans ho, hv3.trans hv⟩
      · rw [if_neg hb]
        exact ih st

theorem generateUniqueName_shape (cfg : Cfg) (p : Str) (st : St) :
    (∃ u, generateUniqueName cfg p st = .ok u st) ∨
    (∃ st2, generateUniqueName cfg p st = .exited 1 st2 ∧
      st2.output = st.output ∧ st2.visitedNotes = st.visitedNotes) := by
  unfold generateUniqueName tryCatchE fsReadFile exitProc
  simp only [bind_apply, pure_apply, modSt_apply, consoleError]
  cases h1 : fileAbs cfg st p with
  | none => exact .inr ⟨_, rfl, rfl, rfl⟩
  | some pr =>
      obtain ⟨c, b⟩ := pr
      cases b with
      | true => exact .inl ⟨_, rfl⟩
      | false => exact .inr ⟨_, rfl, rfl, rfl⟩

theorem fsRename_shape (old nw : Str) (st : St) :
    fsRename old nw st = .err .enoent st ∨
    (∃ pr, st.output.find? (fun q => q.1 = old) = some pr ∧
      fsRename old nw st = .ok () { st with
        output := assocSet (assocDelete st.output old) nw pr.2 }) := by
  unfold fsRename
  cases hf : st.output.find? (fun q => q.1 = old) with
  | none => left; rfl
  | some pr => right; exact ⟨pr, rfl, rfl⟩

theorem copyFileToOutput_shape (cfg : Cfg) (src dst : Str) (st : St) :
    (∃ e, copyFileToOutput cfg src dst st = .err e st) ∨
    (∃ st2, copyFileToOutput cfg src dst st = .ok () st2 ∧
      st2.output = st.output ∧ st2.visitedNotes = st.visitedNotes) ∨
    (∃ c, fileAbs cfg st src = some (c, true) ∧
      copyFileToOutput cfg src dst st = .ok () { st with
        output := assocSet st.output dst c }) := by
  unfold copyFileToOutput tryCatchE fsAccessR fsCopyFile fsReadFile throwJs
  simp only [bind_apply, pure_apply, modSt_apply, logWarning]
  cases h1 : fileAbs cfg st src with
  | none =>
      right; left
      exact ⟨_, rfl, rfl, rfl⟩
  | some pr =>
      obtain ⟨c, b⟩ := pr
      cases b with
      | true =>
          right; right
          refine ⟨c, rfl, ?_⟩
          simp only [h1]
      | false =>
          left
          exact ⟨.eacces, rfl⟩

theorem parseMdE_shape (cfg : Cfg) (p : Str) (st : St) :
    (∃ e, parseMarkdownForLinksE cfg p st = .err e st) ∨
    (∃ c, fileAbs cfg st p = some (c, true) ∧
      parseMarkdownForLinksE cfg p st = .ok (parseMd c) st) := by
  unfold parseMarkdownForLinksE fsReadFile
  simp only [bind_apply, pure_apply]
  cases h1 : fileAbs cfg st p with
  | none =>
      simp only [h1]
      exact .inl ⟨.enoent, rfl⟩
  | some pr =>
      obtain ⟨c, b⟩ := pr
      cases b with
      | true =>
          simp only [h1]
          exact .inr ⟨c, rfl, rfl⟩
      | false =>
          simp only [h1]
          exact .inl ⟨.eacces, rfl⟩

theorem outOk_of_eq {cfg : Cfg} {s t : St} (h : t.output = s.output) (hs : outOk cfg s) :
    outOk cfg t := by
  unfold outOk at hs ⊢
  rw [h]
  exact hs

theorem assocSet_forall {P : Str → Prop} {m : List (Str × Str)} {k v : Str}
    (h : ∀ pr ∈ m, P pr.2) (hv : P v) : ∀ pr ∈ assocSet m k v, P pr.2 := by
  intro pr hpr
  unfold assocSet at hpr
  by_cases hk : (m.find? (fun q => q.1 = k)).isSome
  · rw [if_pos hk] at hpr
    obtain ⟨q, hq, hmap⟩ := List.mem_map.mp hpr
    by_cases hqk : q.1 = k
    · rw [if_pos hqk] at hmap
      rw [← hmap]
      exact hv
    · rw [if_neg hqk] at hmap
      rw [← hmap]
      exact h q hq
  · rw [if_neg hk] at hpr
    rcases List.mem_append.mp hpr with hin | hone
    · exact h pr hin
    · rw [List.mem_singleton.mp hone]
      exact hv

theorem assocDelete_forall {P : Str → Prop} {m : List (Str × Str)} {k : Str}
    (h : ∀ pr ∈ m, P pr.2) : ∀ pr ∈ assocDelete m k, P pr.2 :=
  fun pr hpr => h pr (List.mem_of_mem_filter hpr)

theorem goodAt_bind {cfg : Cfg} {α β : Type} {m : EM α} {f : α → EM β} {st : St}
    (hm : goodAt cfg m st)
    (hf : ∀ a st2, m st = .ok a st2 → goodAt cfg (f a) st2) :
    goodAt cfg (m >>= f) st := by
  obtain ⟨h1, h2, h3⟩ := hm
  cases hr : m st with
  | ok a st2 =>
      obtain ⟨g1, g2, g3⟩ := hf a st2 hr
      rw [hr] at h2 h3
      refine ⟨?_, ?_, ?_⟩
      · rw [bind_apply, hr]; exact g1
      · rw [bind_apply, hr]; intro h; exact g2 (h2 h)
      · rw [bind_apply, hr]; exact visSub_trans h3 g3
  | err e st2 =>
      rw [hr] at h2 h3
      exact ⟨by rw [bind_apply, hr]; rfl, by rw [bind_apply, hr]; exact h2,
        by rw [bind_apply, hr]; exact h3⟩
  | exited c st2 =>
      rw [hr] at h2 h3
      exact ⟨by rw [bind_apply, hr]; rfl, by rw [bind_apply, hr]; exact h2,
        by rw [bind_apply, hr]; exact h3⟩
  | fuelOut st2 =>
      rw [hr] at h1
      exact absurd h1 (by simp [isFuelOut])

theorem goodE_bind {cfg : Cfg} {α β : Type} {m : EM α} {f : α → EM β}
    (hm : goodE cfg m) (hf : ∀ a, goodE cfg (f a)) : goodE cfg (m >>= f) :=
  fun st => goodAt_bind (hm st) (fun a st2 _ => hf a st2)

theorem goodE_pure {cfg : Cfg} {α : Type} (a : α) : goodE cfg (pure a : EM α) :=
  fun st => ⟨rfl, fun h => h, visSub_refl st⟩

theorem goodE_getSt {cfg : Cfg} : goodE cfg getSt :=
  fun st => ⟨rfl, fun h => h, visSub_refl st⟩

theorem goodE_modSt {cfg : Cfg} (f : St → St)
    (h : ∀ s, (f s).output = s.output ∧ visSub s (f s)) : goodE cfg (modSt f) :=
  fun st => ⟨rfl, fun ho => outOk_of_eq (h st).1 ho, (h st).2⟩

theorem goodE_throwJs {cfg : Cfg} {α : Type} (e : JsErr) : goodE cfg (throwJs (α := α) e) :=
  fun st => ⟨rfl, fun h => h, visSub_refl st⟩

theorem goodE_exitProc {cfg : Cfg} {α : Type} (n : Nat) : goodE cfg (exitProc (α := α) n) :=
  fun st => ⟨rfl, fun h => h, visSub_refl st⟩

theorem goodE_logWarning {cfg : Cfg} (m : Str) : goodE cfg (logWarning m) :=
  fun st => ⟨rfl, fun h => h, visSub_of_eq rfl⟩

theorem goodE_consoleLog {cfg : Cfg} (m : Str) : goodE cfg (consoleLog m) :=
  fun st => ⟨rfl, fun h => h, visSub_of_eq rfl⟩

theorem goodE_consoleError {cfg : Cfg} (m : Str) : goodE cfg (consoleError m) :=
  fun st => ⟨rfl, fun h => h, visSub_of_eq rfl⟩

theorem goodE_ite {cfg : Cfg} {α : Type} {c : Prop} [Decidable c] {m1 m2 : EM α}
    (h1 : goodE cfg m1) (h2 : goodE cfg m2) : goodE cfg (if c then m1 else m2) := by
  by_cases h : c
  · rw [if_pos h]; exact h1
  · rw [if_neg h]; exact h2

theorem goodE_resolveFilePath (cfg : Cfg) (bp l : Str) :
    goodE cfg (resolveFilePath cfg bp l) := by
  intro st
  obtain ⟨v, hv⟩ := resolveFilePath_shape cfg bp l st
  unfold goodAt
  rw [hv]
  exact ⟨rfl, fun h => h, visSub_refl st⟩

theorem goodE_contentScan (cfg : Cfg) (rn rp : Str) (m : List (Str × Str)) :
    goodE cfg (contentScan cfg rn rp m) := by
  intro st
  obtain ⟨v, st2, hc, ho, hvv⟩ := contentScan_shape cfg rn rp m st
  unfold goodAt
  rw [hc]
  exact ⟨rfl, fun h => outOk_of_eq ho h, visSub_of_eq hvv⟩

theorem goodE_generateUniqueName (cfg : Cfg) (p : Str) :
    goodE cfg (generateUniqueName cfg p) := by
  intro st
  rcases generateUniqueName_shape cfg p st with ⟨u, hg⟩ | ⟨st2, hg, ho, hvv⟩
  · unfold goodAt
    rw [hg]
    exact ⟨rfl, fun h => h, visSub_refl st⟩
  · unfold goodAt
    rw [hg]
    exact ⟨rfl, fun h => outOk_of_eq ho h, visSub_of_eq hvv⟩

theorem goodE_fsRename {cfg : Cfg} (old nw : Str) : goodE cfg (fsRename old nw) := by
  intro st
  rcases fsRename_shape old nw st with hr | ⟨pr, hfind, hr⟩
  · unfold goodAt
    rw [hr]
    exact ⟨rfl, fun h => h, visSub_refl st⟩
  · unfold goodAt
    rw [hr]
    refine ⟨rfl, ?_, visSub_of_eq rfl⟩
    intro h
    exact assocSet_forall (assocDelete_forall h) (h pr (List.mem_of_find?_eq_some hfind))

theorem goodE_copyFileToOutput (cfg : Cfg) (src dst : Str) :
    goodE cfg (copyFileToOutput cfg src dst) := by
  intro st
  rcases copyFileToOutput_shape cfg src dst st with ⟨e, hc⟩ | ⟨st2, hc, ho, hvv⟩ |
    ⟨c, hfa, hc⟩
  · unfold goodAt
    rw [hc]
    exact ⟨rfl, fun h => h, visSub_refl st⟩
  · unfold goodAt
    rw [hc]
    exact ⟨rfl, fun h => outOk_of_eq ho h, visSub_of_eq hvv⟩
  · unfold goodAt
    rw [hc]
    refine ⟨rfl, ?_, visSub_of_eq rfl⟩
    intro h
    exact assocSet_forall h (fileAbs_content cfg st src c true h hfa)

theorem goodE_parseMdE (cfg : Cfg) (p : Str) :
    goodE cfg (parseMarkdownForLinksE cfg p) := by
  intro st
  rcases parseMdE_shape cfg p st with ⟨e, hp⟩ | ⟨c, hfa, hp⟩
  · unfold goodAt
    rw [hp]
    exact ⟨rfl, fun h => h, visSub_refl st⟩
  · unfold goodAt
    rw [hp]
    exact ⟨rfl, fun h => h, visSub_refl st⟩

theorem goodAt_bind_goodAt {cfg : Cfg} {α β : Type} {m : EM α} {f : α → EM β} {st : St}
    (hm : goodAt cfg m st)
    (hf : ∀ a st2, (outOk cfg st → outOk cfg st2) → visSub st st2 → goodAt cfg (f a) st2) :
    goodAt cfg (m >>= f) st :=
  goodAt_bind hm (fun a st2 heq => hf a st2
    (by have := hm.2.1; rwa [heq] at this) (by have := hm.2.2; rwa [heq] at this))

theorem goodAt_bind_goodE {cfg : Cfg} {α β : Type} {m : EM α} {f : α → EM β} {st : St}
    (hm : goodE cfg m)
    (hf : ∀ a st2, (outOk cfg st → outOk cfg st2) → visSub st st2 → goodAt cfg (f a) st2) :
    goodAt cfg (m >>= f) st :=
  goodAt_bind_goodAt (hm st) hf

theorem goodAt_bind_getSt {cfg : Cfg} {β : Type} {f : St → EM β} {st : St}
    (h : goodAt cfg (f st) st) : goodAt cfg (getSt >>= f) st := by
  refine goodAt_bind ⟨rfl, fun x => x, visSub_refl st⟩ ?_
  intro a st2 heq
  injection heq with h1 h2
  subst h1
  subst h2
  exact h

theorem goodAt_bind_modSt {cfg : Cfg} {β : Type} {g : St → St} {f : Unit → EM β} {st : St}
    (hof : (g st).output = st.output) (hvs : visSub st (g st))
    (h : goodAt cfg (f ()) (g st)) : goodAt cfg (modSt g >>= f) st := by
  refine goodAt_bind ⟨rfl, fun ho => outOk_of_eq hof ho, hvs⟩ ?_
  intro a st2 heq
  injection heq with h1 h2
  subst h1
  subst h2
  exact h

theorem goodAt_bind_resolve {cfg : Cfg} {bp l : Str} {β : Type} {f : Option Str → EM β}
    {st : St} (h : ∀ v, goodAt cfg (f v) st) :
    goodAt cfg (resolveFilePath cfg bp l >>= f) st := by
  obtain ⟨v, hv⟩ := resolveFilePath_shape cfg bp l st
  refine goodAt_bind ⟨by rw [hv]; rfl, by rw [hv]; exact fun x => x,
    by rw [hv]; exact visSub_refl st⟩ ?_
  intro a st2 heq
  rw [hv] at heq
  injection heq with h1 h2
  subst h1
  subst h2
  exact h v

theorem goodAt_bind_scan {cfg : Cfg} {rn rp : Str} {m : List (Str × Str)} {β : Type}
    {f : Option Str → EM β} {st : St}
    (h : ∀ v st2, st2.output = st.output → st2.visitedNotes = st.visitedNotes →
      goodAt cfg (f v) st2) :
    goodAt cfg (contentScan cfg rn rp m >>= f) st := by
  obtain ⟨v, st2, hc, ho, hvv⟩ := contentScan_shape cfg rn rp m st
  refine goodAt_bind ⟨by rw [hc]; rfl, by rw [hc]; exact fun x => outOk_of_eq ho x,
    by rw [hc]; exact visSub_of_eq hvv⟩ ?_
  intro a st3 heq
  rw [hc] at heq
  injection heq with h1 h2
  subst h1
  subst h2
  exact h v st2 ho hvv

theorem goodAt_bind_parse {cfg : Cfg} {p : Str} {β : Type}
    {f : List Str × List Str → EM β} {st : St}
    (h : ∀ c, fileAbs cfg st p = some (c, true) → goodAt cfg (f (parseMd c)) st) :
    goodAt cfg (parseMarkdownForLinksE cfg p >>= f) st := by
  rcases parseMdE_shape cfg p st with ⟨e, hp⟩ | ⟨c, hfa, hp⟩
  · exact ⟨by rw [bind_apply, hp]; rfl, by rw [bind_apply, hp]; exact fun x => x,
      by rw [bind_apply, hp]; exact visSub_refl st⟩
  · refine goodAt_bind ⟨by rw [hp]; rfl, by rw [hp]; exact fun x => x,
      by rw [hp]; exact visSub_refl st⟩ ?_
    intro a st2 heq
    rw [hp] at heq
    injection heq with h1 h2
    subst h1
    subst h2
    exact h c hfa

theorem goodAt_bind_gen {cfg : Cfg} {p : Str} {β : Type} {f : Str → EM β} {st : St}
    (h : ∀ u, goodAt cfg (f u) st) :
    goodAt cfg (generateUniqueName cfg p >>= f) st := by
  rcases generateUniqueName_shape cfg p st with ⟨u, hg⟩ | ⟨st2, hg, ho, hvv⟩
  · refine goodAt_bind ⟨by rw [hg]; rfl, by rw [hg]; exact fun x => x,
      by rw [hg]; exact visSub_refl st⟩ ?_
    intro a st3 heq
    rw [hg] at heq
    injection heq with h1 h2
    subst h1
    subst h2
    exact h u
  · exact ⟨by rw [bind_apply, hg]; rfl, by rw [bind_apply, hg]; exact fun x => outOk_of_eq ho x,
      by rw [bind_apply, hg]; exact visSub_of_eq hvv⟩

theorem racAtt_good (cfg : Cfg) :
    ∀ (l : List Str) (bp od : Str), goodE cfg (racAtt cfg l bp od) := by
  intro l
  induction l with
  | nil => intro bp od st; exact ⟨rfl, fun h => h, visSub_refl st⟩
  | cons a rest ih =>
      intro bp od
      simp only [racAtt]
      refine goodE_bind (goodE_resolveFilePath cfg bp a) ?_
      intro r
      cases r with
      | none => exact goodE_bind (goodE_logWarning _) (fun _ => ih bp od)
      | some rp =>
          refine goodE_bind goodE_getSt ?_
          intro st0
          refine goodE_bind (goodE_contentScan cfg _ rp st0.uniqueAttachments) ?_
          intro ex
          cases ex with
          | some _ => exact goodE_bind (goodE_consoleLog _) (fun _ => ih bp od)
          | none =>
              refine goodE_bind goodE_getSt ?_
              intro st1
              refine goodE_bind ?_ ?_
              · cases st1.uniqueAttachments.find? (fun pr => basenameL pr.1 = basenameL rp) with
                | none => exact goodE_pure ()
                | some pr =>
                    obtain ⟨ep, aRef⟩ := pr
                    refine goodE_bind (goodE_generateUniqueName cfg ep) ?_
                    intro u
                    refine goodE_bind (goodE_fsRename _ _) ?_
                    intro _
                    exact goodE_modSt _ (fun s => ⟨rfl, visSub_of_eq rfl⟩)
              · intro _
                refine goodE_bind goodE_getSt ?_
                intro st2
                refine goodE_bind ?_ ?_
                · refine goodE_ite ?_ (goodE_pure _)
                  refine goodE_bind (goodE_generateUniqueName cfg rp) ?_
                  intro u
                  exact goodE_bind (goodE_modSt _ (fun s => ⟨rfl, visSub_of_eq rfl⟩))
                    (fun _ => goodE_pure u)
                · intro uniqueName
                  refine goodE_bind (goodE_copyFileToOutput cfg rp _) ?_
                  intro _
                  exact goodE_bind (goodE_modSt _ (fun s => ⟨rfl, visSub_of_eq rfl⟩))
                    (fun _ => ih bp od)


theorem bound_rest {cfg : Cfg} {st st2 : St} {restLen g : Nat}
    (hvs : visSub st st2)
    (hb : restLen + 2 + unvis cfg st * (maxNotesLen cfg + 1) ≤ g + 1) :
    restLen + 1 + unvis cfg st2 * (maxNotesLen cfg + 1) ≤ g := by
  have hu := unvis_mono cfg hvs
  have hmul := Nat.mul_le_mul_right (maxNotesLen cfg + 1) hu
  omega

theorem bound_nested {cfg : Cfg} {st stA : St} {note c : Str} {restLen g : Nat}
    (hvsA : visSub st stA)
    (hnote : note ∈ allNoteStrs cfg)
    (hns : ¬ note ∈ st.visitedNotes)
    (hmem : note ∈ stA.visitedNotes)
    (hc : c ∈ vaultContentsL cfg.vault)
    (hb : restLen + 2 + unvis cfg st * (maxNotesLen cfg + 1) ≤ g + 1) :
    (parseMd c).2.length + 1 + unvis cfg stA * (maxNotesLen cfg + 1) ≤ g := by
  have hstrict := unvis_strict cfg hvsA note hnote hns hmem
  have hlen := notes_len_le cfg c hc
  have hmul : (unvis cfg stA + 1) * (maxNotesLen cfg + 1) ≤
      unvis cfg st * (maxNotesLen cfg + 1) :=
    Nat.mul_le_mul_right _ (Nat.succ_le_of_lt hstrict)
  have hexp : (unvis cfg stA + 1) * (maxNotesLen cfg + 1) =
      unvis cfg stA * (maxNotesLen cfg + 1) + (maxNotesLen cfg + 1) := by ring
  omega

theorem walkNotes_good (cfg : Cfg) :
    ∀ (gas : Nat) (notes : List Str) (bp od : Str) (st : St),
      outOk cfg st →
      (∀ n ∈ notes, n ∈ allNoteStrs cfg) →
      notes.length + 1 + unvis cfg st * (maxNotesLen cfg + 1) ≤ gas →
      goodAt cfg (walkNotes cfg gas notes bp od) st := by
  intro gas
  induction gas with
  | zero =>
      intro notes bp od st hout hsub hbound
      omega
  | succ g ihg =>
      intro notes bp od st hout hsub hbound
      cases notes with
      | nil => exact ⟨rfl, fun h => h, visSub_refl st⟩
      | cons note rest =>
          have hrest : ∀ n ∈ rest, n ∈ allNoteStrs cfg :=
            fun n hn => hsub n (List.mem_cons_of_mem _ hn)
          have hnote : note ∈ allNoteStrs cfg := hsub note (List.mem_cons_self _ _)
          have hb2 : rest.length + 2 + unvis cfg st * (maxNotesLen cfg + 1) ≤ g + 1 := by
            simp only [List.length_cons] at hbound
            omega
          simp only [walkNotes]
          refine goodAt_bind_getSt ?_
          by_cases hv : st.visitedNotes.contains note = true
          · simp only [if_pos hv]
            exact ihg rest bp od st hout hrest (bound_rest (visSub_refl st) hb2)
          · simp only [if_neg hv]
            have hns : ¬ note ∈ st.visitedNotes := by simpa using hv
            refine goodAt_bind_modSt rfl (visSub_append st [note]) ?_
            have hvs1 : visSub st { st with visitedNotes := st.visitedNotes ++ [note] } :=
              visSub_append st [note]
            refine goodAt_bind_resolve ?_
            intro r
            cases r with
            | none =>
                refine goodAt_bind_goodE (goodE_logWarning _) ?_
                intro _ st2 ho2 hv2
                exact ihg rest bp od st2 (ho2 hout) hrest
                  (bound_rest (visSub_trans hvs1 hv2) hb2)
            | some rp =>
                by_cases hplace :
                    (!("..".data.isPrefixOf (relativeL cfg.cwd od (stemL (basenameL rp)))) &&
                     !(isAbsL (relativeL cfg.cwd od (stemL (basenameL rp))))) = true
                · simp only [if_pos hplace]
                  refine goodAt_bind_modSt rfl (visSub_of_eq rfl) ?_
                  exact ihg rest bp od _ hout hrest
                    (bound_rest (visSub_trans hvs1 (visSub_of_eq rfl)) hb2)
                · simp only [if_neg hplace]
                  refine goodAt_bind_getSt ?_
                  refine goodAt_bind_scan ?_
                  intro exv st2 ho2eq hv2eq
                  have hout2 : outOk cfg st2 := outOk_of_eq ho2eq hout
                  have hvs2 : visSub st st2 := visSub_trans hvs1 (visSub_of_eq hv2eq)
                  cases exv with
                  | some q =>
                      refine goodAt_bind_goodE (goodE_consoleLog _) ?_
                      intro _ st3 ho3 hv3
                      exact ihg rest bp od st3 (ho3 hout2) hrest
                        (bound_rest (visSub_trans hvs2 hv3) hb2)
                  | none =>
                      refine goodAt_bind_getSt ?_
                      cases hfind : st2.uniqueNotes.find?
                          (fun pr => basenameL pr.1 = basenameL rp) with
                      | none =>
                          refine goodAt_bind_goodE (goodE_pure ()) ?_
                          intro _ st3 ho3 hv3
                          have hout3 : outOk cfg st3 := ho3 hout2
                          have hvs3 : visSub st st3 := visSub_trans hvs2 hv3
                          refine goodAt_bind_goodE (goodE_ite (goodE_bind
                            (goodE_generateUniqueName cfg rp) (fun u => goodE_bind
                              (goodE_modSt _ (fun s => ⟨rfl, visSub_of_eq rfl⟩))
                              (fun _ => goodE_pure _))) (goodE_pure _)) ?_
                          intro finalPath st4 ho4 hv4
                          have hout4 : outOk cfg st4 := ho4 hout3
                          have hvs4 : visSub st st4 := visSub_trans hvs3 hv4
                          refine goodAt_bind_goodE (goodE_copyFileToOutput cfg rp _) ?_
                          intro _ st5 ho5 hv5
                          have hout5 : outOk cfg st5 := ho5 hout4
                          have hvs5 : visSub st st5 := visSub_trans hvs4 hv5
                          refine goodAt_bind_modSt rfl (visSub_of_eq rfl) ?_
                          refine goodAt_bind_parse ?_
                          intro c1 hfa1
                          refine goodAt_bind_goodE (racAtt_good cfg _ _ _) ?_
                          intro _ stA hoA hvA
                          have houtA : outOk cfg stA := by
                            refine hoA ?_
                            exact outOk_of_eq rfl hout5
                          have hvsA : visSub st stA :=
                            visSub_trans hvs5 (visSub_trans (visSub_of_eq rfl) hvA)
                          refine goodAt_bind_parse ?_
                          intro c2 hfa2
                          have hcA : c2 ∈ vaultContentsL cfg.vault :=
                            fileAbs_content cfg stA rp c2 true houtA hfa2
                          have hmemA : note ∈ stA.visitedNotes :=
                            (visSub_trans (visSub_of_eq rfl)
                              (visSub_trans (visSub_of_eq hv2eq) (visSub_trans hv3
                                (visSub_trans hv4 (visSub_trans hv5
                                  (visSub_trans (visSub_of_eq rfl) hvA)))))) note
                              (List.mem_append_right _ (List.mem_singleton.mpr rfl))
                          refine goodAt_bind_goodAt
                            (ihg (parseMd c2).2 rp od stA houtA
                              (notes_sub_all cfg c2 hcA)
                              (bound_nested hvsA hnote hns hmemA hcA hb2)) ?_
                          intro _ stB hoB hvB
                          exact ihg rest bp od stB (hoB houtA) hrest
                            (bound_rest (visSub_trans hvsA hvB) hb2)
                      | some pr =>
                          obtain ⟨ep, nRef⟩ := pr
                          refine goodAt_bind_goodE (goodE_bind
                            (goodE_generateUniqueName cfg ep) (fun u => goodE_bind
                              (goodE_fsRename _ _)
                              (fun _ => goodE_modSt _ (fun s => ⟨rfl, visSub_of_eq rfl⟩)))) ?_
                          intro _ st3 ho3 hv3
                          have hout3 : outOk cfg st3 := ho3 hout2
                          have hvs3 : visSub st st3 := visSub_trans hvs2 hv3
                          refine goodAt_bind_goodE (goodE_ite (goodE_bind
                            (goodE_generateUniqueName cfg rp) (fun u => goodE_bind
                              (goodE_modSt _ (fun s => ⟨rfl, visSub_of_eq rfl⟩))
                              (fun _ => goodE_pure _))) (goodE_pure _)) ?_
                          intro finalPath st4 ho4 hv4
                          have hout4 : outOk cfg st4 := ho4 hout3
                          have hvs4 : visSub st st4 := visSub_trans hvs3 hv4
                          refine goodAt_bind_goodE (goodE_copyFileToOutput cfg rp _) ?_
                          intro _ st5 ho5 hv5
                          have hout5 : outOk cfg st5 := ho5 hout4
                          have hvs5 : visSub st st5 := visSub_trans hvs4 hv5
                          refine goodAt_bind_modSt rfl (visSub_of_eq rfl) ?_
                          refine goodAt_bind_parse ?_
                          intro c1 hfa1
                          refine goodAt_bind_goodE (racAtt_good cfg _ _ _) ?_
                          intro _ stA hoA hvA
                          have houtA : outOk cfg stA := by
                            refine hoA ?_
                            exact outOk_of_eq rfl hout5
                          have hvsA : visSub st stA :=
                            visSub_trans hvs5 (visSub_trans (visSub_of_eq rfl) hvA)
                          refine goodAt_bind_parse ?_
                          intro c2 hfa2
                          have hcA : c2 ∈ vaultContentsL cfg.vault :=
                            fileAbs_content cfg stA rp c2 true houtA hfa2
                          have hmemA : note ∈ stA.visitedNotes :=
                            (visSub_trans (visSub_of_eq hv2eq) (visSub_trans hv3
                              (visSub_trans hv4 (visSub_trans hv5
                                (visSub_trans (visSub_of_eq rfl) hvA))))) note
                              (List.mem_append_right _ (List.mem_singleton.mpr rfl))
                          refine goodAt_bind_goodAt
                            (ihg (parseMd c2).2 rp od stA houtA
                              (notes_sub_all cfg c2 hcA)
                              (bound_nested hvsA hnote hns hmemA hcA hb2)) ?_
                          intro _ stB hoB hvB
                          exact ihg rest bp od stB (hoB houtA) hrest
                            (bound_rest (visSub_trans hvsA hvB) hb2)


/-- C3: the graph walk terminates on every finite store, including cyclic
reference graphs.  With gas at least `|notes| + 1 + unvisited*(maxNotes+1)`
the walk never exhausts its fuel (the model's stand-in for the recursion
terminating), and the visited set only ever grows.  On the concrete cyclic
store `S -> A <-> B` the run completes normally (exit code 0) and each of
`A.md` and `B.md` appears exactly once in the output. -/
theorem c3_termination :
    (∀ (cfg : Cfg) (gas : Nat) (notes : List Str) (basePath outputDir : Str) (st : St),
      outOk cfg st →
      (∀ n ∈ notes, n ∈ allNoteStrs cfg) →
      notes.length + 1 + unvis cfg st * (maxNotesLen cfg + 1) ≤ gas →
      isFuelOut (walkNotes cfg gas notes basePath outputDir st) = false ∧
        visSub st (stOf (walkNotes cfg gas notes basePath outputDir st))) ∧
    ((runMain c3Cfg "S.md".data 10).1 = 0 ∧
     ((runMain c3Cfg "S.md".data 10).2.output.filter
       (fun pr => basenameL pr.1 = "A.md".data)).length = 1 ∧
     ((runMain c3Cfg "S.md".data 10).2.output.filter
       (fun pr => basenameL pr.1 = "B.md".data)).length = 1) := by
  constructor
  · intro cfg gas notes bp od st h1 h2 h3
    have h := walkNotes_good cfg gas notes bp od st h1 h2 h3
    exact ⟨h.1, h.2.2⟩
  · refine ⟨?_, ?_, ?_⟩ <;> decide

/-- Witness for C3: on the cyclic store, a walk starting from the unvisited
seed list with the computed gas bound neither runs out of fuel nor shrinks
the visited set. -/
theorem c3_termination_witness :
    isFuelOut (walkNotes c3Cfg 6 ["A.md".data]
      (pathJoin VAULT_DIR "S.md".data) "/cwd/S".data initSt) = false ∧
    visSub initSt (stOf (walkNotes c3Cfg 6 ["A.md".data]
      (pathJoin VAULT_DIR "S.md".data) "/cwd/S".data initSt)) :=
  c3_termination.1 c3Cfg 6 ["A.md".data] (pathJoin VAULT_DIR "S.md".data) "/cwd/S".data
    initSt (fun pr hpr => absurd hpr (List.not_mem_nil pr)) (by decide) (by decide)


theorem find?_key_isSome (p : Str) : ∀ (m : List (Str × Str)),
    (m.find? (fun q => q.1 = p)).isSome = (m.map (fun pr => pr.1)).contains p := by
  intro m
  induction m with
  | nil => rfl
  | cons a t ih =>
      by_cases h : a.1 = p
      · rw [List.find?_cons_of_pos _ (by simpa using h)]
        simp [h]
      · rw [List.find?_cons_of_neg _ (by simpa using h)]
        simp only [List.map_cons, List.contains_cons]
        rw [ih]
        have hne : (p == a.1) = false := by
          simp [Ne.symm h]
        rw [hne]
        simp

theorem keys_assocSet (m : List (Str × Str)) (k v : Str)
    (h : (m.find? (fun q => q.1 = k)).isSome = true) :
    (assocSet m k v).map (fun pr => pr.1) = m.map (fun pr => pr.1) := by
  unfold assocSet
  rw [if_pos h, List.map_map]
  refine List.map_congr_left ?_
  intro pr hpr
  by_cases hh : pr.1 = k
  · simp [Function.comp, hh]
  · simp [Function.comp, hh]

theorem updateLinks_keys (cfg : Cfg) (p : Str) (st : St)
    (hp : (st.output.find? (fun q => q.1 = p)).isSome = true) :
    (stOf (updateLinks cfg p st)).output.map (fun pr => pr.1) =
      st.output.map (fun pr => pr.1) := by
  unfold updateLinks fsReadFile
  simp only [bind_apply, getSt_apply, modSt_apply, pure_apply]
  cases h1 : fileAbs cfg st p with
  | none => rfl
  | some pr =>
      obtain ⟨c, b⟩ := pr
      cases b with
      | true => exact keys_assocSet _ _ _ hp
      | false => rfl

theorem updLoop_keys (cfg : Cfg) : ∀ (ps : List Str) (st : St),
    (∀ p ∈ ps, (st.output.find? (fun q => q.1 = p)).isSome = true) →
    (stOf (updLoop cfg ps st)).output.map (fun pr => pr.1) =
      st.output.map (fun pr => pr.1) := by
  intro ps
  induction ps with
  | nil => intro st _; rfl
  | cons p rest ih =>
      intro st h
      have hkeys : (stOf (updateLinks cfg p st)).output.map (fun pr => pr.1) =
          st.output.map (fun pr => pr.1) :=
        updateLinks_keys cfg p st (h p (List.mem_cons_self _ _))
      rw [updLoop]
      simp only [bind_apply]
      cases h2 : updateLinks cfg p st with
      | ok a stb =>
          rw [h2] at hkeys
          have hk2 : stb.output.map (fun pr => pr.1) = st.output.map (fun pr => pr.1) := hkeys
          have hsub : ∀ q ∈ rest, (stb.output.find? (fun q2 => q2.1 = q)).isSome = true := by
            intro q hq
            rw [find?_key_isSome, hk2, ← find?_key_isSome]
            exact h q (List.mem_cons_of_mem _ hq)
          exact (ih stb hsub).trans hk2
      | err e stb =>
          rw [h2] at hkeys
          exact hkeys
      | exited c stb =>
          rw [h2] at hkeys
          exact hkeys
      | fuelOut stb =>
          rw [h2] at hkeys
          exact hkeys

/-- C4, amended: the closed-world property holds of the export registries,
not of arbitrary links.  The rewrite phase never adds or removes output
paths — it only rewrites file contents in place — so a path exists after the
rewrite exactly when the walk left it in the output; and on a concrete
completed run every path recorded in either registry is present in the
output store.  (A link whose target was never resolved during the walk is
left unresolved and may point at nothing: see the counterexample.) -/
theorem c4_registry_paths_exist :
    (∀ (cfg : Cfg) (dir : Str) (st : St) (p : Str),
      ((stOf (updateLinksInDirectory cfg dir st)).output.find?
        (fun q => q.1 = p)).isSome =
      (st.output.find? (fun q => q.1 = p)).isSome) ∧
    (∀ pr ∈ (runMain c4bCfg "D.md".data 10).2.uniqueAttachments,
      ((runMain c4bCfg "D.md".data 10).2.output.find?
        (fun q => q.1 = pr.1)).isSome = true) ∧
    (∀ pr ∈ (runMain c4bCfg "D.md".data 10).2.uniqueNotes,
      ((runMain c4bCfg "D.md".data 10).2.output.find?
        (fun q => q.1 = pr.1)).isSome = true) := by
  refine ⟨?_, by decide, by decide⟩
  intro cfg dir st p
  unfold updateLinksInDirectory
  simp only [bind_apply, getSt_apply]
  have hk := updLoop_keys cfg ((st.output.map (fun pr => pr.1)).filter
    (fun q => (dir ++ ['/']).isPrefixOf q && ".md".data.isSuffixOf (basenameL q))) st ?_
  · rw [find?_key_isSome, find?_key_isSome, hk]
  · intro q hq
    rw [find?_key_isSome]
    have hmem : q ∈ st.output.map (fun pr => pr.1) := List.mem_of_mem_filter hq
    simpa using hmem

/-- Witness for C4 at the concrete run: both registry entries name paths that
are present in the output store after the rewrite. -/
theorem c4_registry_paths_exist_witness :
    (((runMain c4bCfg "D.md".data 10).2.output.find?
      (fun q => q.1 = "/cwd/D/attachments/p.png".data)).isSome = true) ∧
    (((runMain c4bCfg "D.md".data 10).2.output.find?
      (fun q => q.1 = "/cwd/D/references/A.md".data)).isSome = true) :=
  ⟨c4_registry_paths_exist.2.1 ("/cwd/D/attachments/p.png".data, "p.png".data) (by decide),
   c4_registry_paths_exist.2.2 ("/cwd/D/references/A.md".data, "A.md".data) (by decide)⟩


theorem EM_bind_assoc {α β γ : Type} (m : EM α) (f : α → EM β) (g : β → EM γ) :
    (m >>= f) >>= g = m >>= fun a => f a >>= g := by
  funext st
  cases hm : m st with
  | ok a st2 => simp [bind_apply, hm]
  | err e st2 => simp [bind_apply, hm]
  | exited c st2 => simp [bind_apply, hm]
  | fuelOut st2 => simp [bind_apply, hm]

theorem EM_bind_pure_unit (m : EM Unit) : (m >>= fun _ => (pure () : EM Unit)) = m := by
  funext st
  cases hm : m st with
  | ok a st2 =>
      cases a
      simp [bind_apply, hm, pure_apply]
  | err e st2 => simp [bind_apply, hm]
  | exited c st2 => simp [bind_apply, hm]
  | fuelOut st2 => simp [bind_apply, hm]

theorem itemsFold_append (cfg : Cfg) (gas : Nat) (od : Str) :
    ∀ (xs ys : List (Str ⊕ Str)),
      itemsFold cfg gas od (xs ++ ys) =
        itemsFold cfg gas od xs >>= fun _ => itemsFold cfg gas od ys := by
  intro xs ys
  induction xs with
  | nil => rfl
  | cons x rest ih =>
      cases x with
      | inl n =>
          rw [List.cons_append]
          rw [show itemsFold cfg gas od (Sum.inl n :: (rest ++ ys)) =
            (logWarning ("Skipping file or folder: ".data ++ n) >>= fun _ =>
              itemsFold cfg gas od (rest ++ ys)) from rfl]
          rw [show itemsFold cfg gas od (Sum.inl n :: rest) =
            (logWarning ("Skipping file or folder: ".data ++ n) >>= fun _ =>
              itemsFold cfg gas od rest) from rfl]
          rw [EM_bind_assoc]
          simp only [ih]
      | inr d =>
          rw [List.cons_append]
          rw [show itemsFold cfg gas od (Sum.inr d :: (rest ++ ys)) =
            (processMarkdownFile cfg gas d od .folder >>= fun _ =>
              itemsFold cfg gas od (rest ++ ys)) from rfl]
          rw [show itemsFold cfg gas od (Sum.inr d :: rest) =
            (processMarkdownFile cfg gas d od .folder >>= fun _ =>
              itemsFold cfg gas od rest) from rfl]
          rw [EM_bind_assoc]
          simp only [ih]

theorem processFolder_items (cfg : Cfg) (gas : Nat) (od : Str) :
    ∀ (t : VTree) (fp : Str),
      processFolder cfg gas fp t od = itemsFold cfg gas od (folderItems fp t) := by
  intro t
  induction t with
  | vnil => intro fp; rfl
  | vfile n c r =>
      intro fp
      by_cases hu : "_".data.isPrefixOf n = true
      · simp only [processFolder, folderItems, if_pos hu, itemsFold]
        exact (EM_bind_pure_unit _).symm
      · by_cases hmd : ".md".data.isSuffixOf n = true
        · simp only [processFolder, folderItems, if_neg hu, if_pos hmd, itemsFold]
          exact (EM_bind_pure_unit _).symm
        · simp only [processFolder, folderItems, if_neg hu, if_neg hmd, itemsFold]
  | vdir n sub ih =>
      intro fp
      by_cases hu : "_".data.isPrefixOf n = true
      · simp only [processFolder, folderItems, if_pos hu, itemsFold]
        exact (EM_bind_pure_unit _).symm
      · simp only [processFolder, folderItems, if_neg hu]
        exact ih (pathJoin fp n)
  | vcons e rest ih1 ih2 =>
      intro fp
      simp only [processFolder, folderItems]
      rw [itemsFold_append]
      simp only [ih1, ih2]

theorem folderItems_docs :
    ∀ (t : VTree) (fp : Str), (folderItems fp t).filterMap docOf = collectDocs fp t := by
  intro t
  induction t with
  | vnil => intro fp; rfl
  | vfile n c r =>
      intro fp
      by_cases hu : "_".data.isPrefixOf n = true
      · rw [folderItems, collectDocs, if_pos hu, if_pos hu]
        rfl
      · by_cases hmd : ".md".data.isSuffixOf n = true
        · rw [folderItems, collectDocs, if_neg hu, if_neg hu, if_pos hmd, if_pos hmd]
          rfl
        · rw [folderItems, collectDocs, if_neg hu, if_neg hu, if_neg hmd, if_neg hmd]
          rfl
  | vdir n sub ih =>
      intro fp
      by_cases hu : "_".data.isPrefixOf n = true
      · rw [folderItems, collectDocs, if_pos hu, if_pos hu]
        rfl
      · rw [folderItems, collectDocs, if_neg hu, if_neg hu]
        exact ih (pathJoin fp n)
  | vcons e rest ih1 ih2 =>
      intro fp
      simp [folderItems, collectDocs, List.filterMap_append, ih1, ih2]

theorem folderItems_inl :
    ∀ (fp : Str) (t : VTree) (n : Str),
      Sum.inl n ∈ folderItems fp t → "_".data.isPrefixOf n = true := by
  intro fp t
  induction t generalizing fp with
  | vnil => intro n h; simp [folderItems] at h
  | vfile m c r =>
      intro n h
      by_cases hu : "_".data.isPrefixOf m = true
      · rw [folderItems, if_pos hu] at h
        rw [List.mem_singleton] at h
        cases h
        exact hu
      · by_cases hmd : ".md".data.isSuffixOf m = true
        · rw [folderItems, if_neg hu, if_pos hmd] at h
          rw [List.mem_singleton] at h
          cases h
        · rw [folderItems, if_neg hu, if_neg hmd] at h
          cases h
  | vdir m sub ih =>
      intro n h
      by_cases hu : "_".data.isPrefixOf m = true
      · rw [folderItems, if_pos hu] at h
        rw [List.mem_singleton] at h
        cases h
        exact hu
      · rw [folderItems, if_neg hu] at h
        exact ih (pathJoin fp m) n h
  | vcons e rest ih1 ih2 =>
      intro n h
      rw [folderItems] at h
      rcases List.mem_append.mp h with h1 | h2
      · exact ih1 fp n h1
      · exact ih2 fp n h2

/-- C10: for folder input, every underscore-prefixed file or directory is
skipped by the top-level walk with a warning and contributes no top-level
document: the walk equals the replay of its event stream, whose skip events
are exactly underscore-prefixed names and whose document events are exactly
the collected non-underscore `.md` paths.  On a concrete folder run, the
skipped `_hidden.md` and `_private` never reach the output, while the
`_attachments` file still enters it indirectly as a resolved attachment. -/
theorem c10_underscore_skip :
    (∀ (cfg : Cfg) (gas : Nat) (od : Str) (t : VTree) (fp : Str),
      processFolder cfg gas fp t od = itemsFold cfg gas od (folderItems fp t)) ∧
    (∀ (t : VTree) (fp : Str),
      (folderItems fp t).filterMap docOf = collectDocs fp t) ∧
    (∀ (fp : Str) (t : VTree) (n : Str),
      Sum.inl n ∈ folderItems fp t → "_".data.isPrefixOf n = true) ∧
    ((runMain c10Cfg "Proj".data 10).2.output.map (fun pr => pr.1) =
      ["/cwd/Proj/Proj/D.md".data, "/cwd/Proj/attachments/x.png".data] ∧
     (runMain c10Cfg "Proj".data 10).2.warnings =
      ["[WARNING]: Skipping file or folder: _hidden.md".data,
       "[WARNING]: Skipping file or folder: _private".data]) :=
  ⟨processFolder_items, folderItems_docs, folderItems_inl, by decide, by decide⟩

/-- Witness for C10: a skip event of the concrete store is indeed an
underscore-prefixed name. -/
theorem c10_underscore_skip_witness :
    "_".data.isPrefixOf "_hidden.md".data = true :=
  c10_underscore_skip.2.2.1 VAULT_DIR
    (.vfile "_hidden.md".data "secret".data true) "_hidden.md".data
    (show (Sum.inl "_hidden.md".data : Str ⊕ Str) ∈
      folderItems VAULT_DIR (.vfile "_hidden.md".data "secret".data true) from
      List.mem_singleton.mpr rfl)


end ObsExp
